import Mathlib

/-!
Verification of the reconciliation / synchronization core of BotLibertyBD.

Shallow embedding of:
- `trustonic_integration.py` : `parsear_fecha`, `_parsear_fecha_string`,
  `limpiar_duplicados` (date normalizer and duplicate resolver);
- `postgres_connector.py` : `PostgresConnector.sync_imeis` and the store
  operations it performs (synchronizer);
- `email_connector.py` : `EmailConnector.analizar_cambios_bd` (change analyzer).

Conventions of the embedding:
- A naive datetime is `DT` (year, month, day, hour, minute, second as `Nat`).
  `datetime.date()` is `DT.dateOf`.
- Python `None` becomes `Option.none`.
- The relational store is a list of rows; the UNIQUE constraint on the
  identifier column is an explicit hypothesis where a claim needs it.
- SQL timestamps `creado` / `actualizado` (set from CURRENT_TIMESTAMP) are
  wall-clock side data that no claim's logic reads back; they are not modelled.
- Row-write failures (psycopg2 errors caught by `execute_query`, which then
  returns `None`) are modelled by failure oracles in `Faults`; an INSERT that
  violates the UNIQUE constraint fails unconditionally.
-/

/-- A naive Python `datetime`: year, month, day, hour, minute, second. -/
structure DT where
  y : Nat
  m : Nat
  d : Nat
  hh : Nat
  mi : Nat
  ss : Nat
deriving DecidableEq, Repr

/-- `datetime.date()`: strip the time-of-day. -/
def DT.dateOf (t : DT) : Nat × Nat × Nat := (t.y, t.m, t.d)

/-!
## Date normalizer (`trustonic_integration.py`, `_parsear_fecha_string` / `parsear_fecha`)

`_parsear_fecha_string` tries `datetime.strptime` on a fixed ordered list of 15
format strings.  We embed CPython's `_strptime` for exactly the directives that
occur in that list (`%Y %m %d %H %I %M %S %p` plus literal characters):
each directive is translated from the regular-expression alternatives CPython
builds for it (e.g. `%m` is `1[0-2]|0[1-9]|[1-9]`), tried in that order; the
whole input must be consumed (`unconverted data remains` otherwise); the
resulting fields must form a valid datetime (`datetime(...)` raises otherwise).
For these 15 formats every directive is followed by a non-digit literal or the
end of the pattern, so the committed ordered-alternative choice below coincides
with the backtracking regex semantics.  The regex is compiled with IGNORECASE,
so literal letters and AM/PM match case-insensitively.
-/

def isDig (c : Char) : Bool := '0' ≤ c && c ≤ '9'

def dv (c : Char) : Nat := c.toNat - '0'.toNat

def two (a b : Char) : Nat := dv a * 10 + dv b

/-- `%Y` : CPython regex `\d\d\d\d` (exactly four digits). -/
def matchY : List Char → Option (Nat × List Char)
  | a :: b :: c :: d :: s =>
    if isDig a && isDig b && isDig c && isDig d then
      some (dv a * 1000 + dv b * 100 + dv c * 10 + dv d, s)
    else none
  | _ => none

/-- `%m` (and `%I`, whose regex is identical) : `1[0-2]|0[1-9]|[1-9]`. -/
def matchm : List Char → Option (Nat × List Char)
  | a :: b :: s =>
    if a == '1' && ('0' ≤ b && b ≤ '2') then some (two a b, s)
    else if a == '0' && ('1' ≤ b && b ≤ '9') then some (two a b, s)
    else if '1' ≤ a && a ≤ '9' then some (dv a, b :: s)
    else none
  | [a] => if '1' ≤ a && a ≤ '9' then some (dv a, []) else none
  | [] => none

/-- `%d` : `3[01]|[1-2]\d|0[1-9]|[1-9]`. -/
def matchd : List Char → Option (Nat × List Char)
  | a :: b :: s =>
    if a == '3' && (b == '0' || b == '1') then some (two a b, s)
    else if (a == '1' || a == '2') && isDig b then some (two a b, s)
    else if a == '0' && ('1' ≤ b && b ≤ '9') then some (two a b, s)
    else if '1' ≤ a && a ≤ '9' then some (dv a, b :: s)
    else none
  | [a] => if '1' ≤ a && a ≤ '9' then some (dv a, []) else none
  | [] => none

/-- `%H` : `2[0-3]|[0-1]\d|\d`. -/
def matchH : List Char → Option (Nat × List Char)
  | a :: b :: s =>
    if a == '2' && ('0' ≤ b && b ≤ '3') then some (two a b, s)
    else if (a == '0' || a == '1') && isDig b then some (two a b, s)
    else if isDig a then some (dv a, b :: s)
    else none
  | [a] => if isDig a then some (dv a, []) else none
  | [] => none

/-- `%M` : `[0-5]\d|\d`. -/
def matchMin : List Char → Option (Nat × List Char)
  | a :: b :: s =>
    if ('0' ≤ a && a ≤ '5') && isDig b then some (two a b, s)
    else if isDig a then some (dv a, b :: s)
    else none
  | [a] => if isDig a then some (dv a, []) else none
  | [] => none

/-- `%S` : `6[0-1]|[0-5]\d|\d` (60/61 admitted by the regex are rejected
later by the `datetime` constructor). -/
def matchS : List Char → Option (Nat × List Char)
  | a :: b :: s =>
    if a == '6' && (b == '0' || b == '1') then some (two a b, s)
    else if ('0' ≤ a && a ≤ '5') && isDig b then some (two a b, s)
    else if isDig a then some (dv a, b :: s)
    else none
  | [a] => if isDig a then some (dv a, []) else none
  | [] => none

/-- `%p` : the locale AM/PM strings, matched case-insensitively
(IGNORECASE).  Returns `true` for PM. -/
def matchp : List Char → Option (Bool × List Char)
  | a :: b :: s =>
    if (a == 'A' || a == 'a') && (b == 'M' || b == 'm') then some (false, s)
    else if (a == 'P' || a == 'p') && (b == 'M' || b == 'm') then some (true, s)
    else none
  | _ => none

/-- Accumulated `strptime` fields, with CPython's defaults
(year 1900, month 1, day 1, midnight). -/
structure PDate where
  py : Nat := 1900
  pm : Nat := 1
  pd : Nat := 1
  phh : Nat := 0
  pmi : Nat := 0
  pss : Nat := 0
  ampm : Option Bool := none
deriving DecidableEq, Repr

/-- Literal characters of the format match case-insensitively because
CPython compiles the whole format regex with IGNORECASE. -/
def charIEq (c x : Char) : Bool := c.toLower == x.toLower

/-- Walk the format string against the input, consuming both; fails when a
directive or literal does not match or input remains (`unconverted data
remains`). -/
def runFmt : List Char → List Char → PDate → Option PDate
  | [], [], acc => some acc
  | [], _ :: _, _ => none
  | '%' :: c :: fs, s, acc =>
    match c with
    | 'Y' =>
      match matchY s with
      | some (v, s2) => runFmt fs s2 { acc with py := v }
      | none => none
    | 'm' =>
      match matchm s with
      | some (v, s2) => runFmt fs s2 { acc with pm := v }
      | none => none
    | 'd' =>
      match matchd s with
      | some (v, s2) => runFmt fs s2 { acc with pd := v }
      | none => none
    | 'H' =>
      match matchH s with
      | some (v, s2) => runFmt fs s2 { acc with phh := v }
      | none => none
    | 'I' =>
      match matchm s with
      | some (v, s2) => runFmt fs s2 { acc with phh := v }
      | none => none
    | 'M' =>
      match matchMin s with
      | some (v, s2) => runFmt fs s2 { acc with pmi := v }
      | none => none
    | 'S' =>
      match matchS s with
      | some (v, s2) => runFmt fs s2 { acc with pss := v }
      | none => none
    | 'p' =>
      match matchp s with
      | some (b, s2) => runFmt fs s2 { acc with ampm := some b }
      | none => none
    | _ => none
  | c :: fs, x :: s, acc => if charIEq c x then runFmt fs s acc else none
  | _ :: _, [], _ => none

def leapYear (y : Nat) : Bool := (y % 4 == 0) && (y % 100 != 0 || y % 400 == 0)

def daysInMonth (y m : Nat) : Nat :=
  if m == 2 then (if leapYear y then 29 else 28)
  else if m == 4 || m == 6 || m == 9 || m == 11 then 30
  else 31

/-- CPython's 12-hour adjustment for `%I`+`%p`, and the range checks the
`datetime` constructor performs (these raise `ValueError`, caught by the
format loop). -/
def finishParse (p : PDate) : Option DT :=
  let hh :=
    match p.ampm with
    | some true => if p.phh == 12 then 12 else p.phh + 12
    | some false => if p.phh == 12 then 0 else p.phh
    | none => p.phh
  if 1 ≤ p.py && 1 ≤ p.pd && p.pd ≤ daysInMonth p.py p.pm && p.pss ≤ 59 && hh ≤ 23 then
    some ⟨p.py, p.pm, p.pd, hh, p.pmi, p.pss⟩
  else none

/-- `datetime.strptime(valor_str, formato)`, returning `none` where CPython
raises `ValueError`. -/
def strptime (fmt s : String) : Option DT :=
  match runFmt fmt.toList s.toList {} with
  | some p => finishParse p
  | none => none

/-- The fixed ordered format list of `_parsear_fecha_string`. -/
def formatos : List String :=
  ["%m/%d/%Y %I:%M:%S %p",
   "%m/%d/%Y %I:%M %p",
   "%d/%m/%Y %I:%M:%S %p",
   "%d/%m/%Y %I:%M %p",
   "%m/%d/%Y %H:%M:%S",
   "%m/%d/%Y %H:%M",
   "%d/%m/%Y %H:%M:%S",
   "%d/%m/%Y %H:%M",
   "%Y-%m-%d %H:%M:%S",
   "%Y-%m-%d %H:%M",
   "%Y-%m-%dT%H:%M:%S",
   "%Y-%m-%dT%H:%M:%SZ",
   "%Y-%m-%d",
   "%m/%d/%Y",
   "%d/%m/%Y"]

/-- The format loop of `_parsear_fecha_string`: first success wins. -/
def tryFormatos : List String → String → Option DT
  | [], _ => none
  | f :: fs, s =>
    match strptime f s with
    | some dt => some dt
    | none => tryFormatos fs s

/-- `_parsear_fecha_string`: try all formats in order; `None` (with a logged
warning) when none matches. -/
def parsearFechaString (s : String) : Option DT := tryFormatos formatos s

/-- Python `str.strip()` whitespace (the ASCII whitespace characters;
non-ASCII Unicode whitespace is out of the modelled input domain). -/
def isSpaceChar (c : Char) : Bool :=
  c == ' ' || c == '\t' || c == '\n' || c == '\r' || c == '\x0b' || c == '\x0c'

/-- Python `str.strip()`: drop whitespace from both ends. -/
def pyStrip (s : String) : String :=
  ⟨((s.toList.dropWhile isSpaceChar).reverse.dropWhile isSpaceChar).reverse⟩

/-- A possibly timezone-aware datetime (`tzinfo` is `none` for naive). The
timezone itself is opaque to the core, so a name suffices. -/
structure AwareDT where
  dt : DT
  tz : Option String
deriving DecidableEq, Repr

/-- The scalar input domain of `parsear_fecha`: null/NaN, `datetime`,
`pandas.Timestamp` (whose `to_pydatetime()` preserves the `tzinfo`), string,
or a value of any unsupported type. -/
inductive Valor where
  | vNone
  | vDatetime (a : AwareDT)
  | vTimestamp (a : AwareDT)
  | vStr (s : String)
  | vOther
deriving DecidableEq, Repr

/-- `fecha.replace(tzinfo=zona)` applied only when a timezone was supplied and
the parsed value is naive (`if zona_horaria and fecha.tzinfo is None`). -/
def applyTz (zona : Option String) (a : AwareDT) : AwareDT :=
  match zona, a.tz with
  | some z, none => { a with tz := some z }
  | _, _ => a

/-- `parsear_fecha(valor, zona_horaria)`. -/
def parsearFecha (valor : Valor) (zona : Option String) : Option AwareDT :=
  match valor with
  | .vNone => none
  | .vDatetime a => some (applyTz zona a)
  | .vTimestamp a => some (applyTz zona a)
  | .vStr s =>
    match parsearFechaString (pyStrip s) with
    | some dt => some (applyTz zona ⟨dt, none⟩)
    | none => none
  | .vOther => none

/-!
## Duplicate resolver (`trustonic_integration.py`, `limpiar_duplicados`)
-/

/-- One entry of the duplicate report.  The `motivo` field of the Python dict
is the fixed string `f'Duplicado encontrado (ocurrencia #{n})'`, a pure
function of `ocurrencia`, and is not modelled separately. -/
structure DupEntry where
  imei : String
  fecha : Option DT
  ocurrencia : Nat
deriving DecidableEq, Repr

/-- The loop of `limpiar_duplicados`.  `seen` is the history of processed
trimmed identifiers, so `vistos.get(i, 0)` is `seen.count i`.  Records whose
identifier is `None`, or blank after trim, are skipped without touching
`vistos`. -/
def limpiarAux : List (Option String × Option DT) → List String →
    List (String × Option DT) × List DupEntry
  | [], _ => ([], [])
  | (im, f) :: rest, seen =>
    match im with
    | none => limpiarAux rest seen
    | some s =>
      if (pyStrip s) == "" then limpiarAux rest seen
      else
        let i := (pyStrip s)
        let c := seen.count i
        let r := limpiarAux rest (seen ++ [i])
        if c > 0 then (r.1, ⟨i, f, c + 1⟩ :: r.2)
        else ((i, f) :: r.1, r.2)

/-- `limpiar_duplicados(registros)` returning `(registros_limpios,
reporte_duplicados)`. -/
def limpiarDuplicados (registros : List (Option String × Option DT)) :
    List (String × Option DT) × List DupEntry :=
  limpiarAux registros []

/-- The valid `(trimmed identifier, date)` pairs of the input in order;
records whose identifier is `None` or blank after trim are dropped. -/
def keyedRegs (registros : List (Option String × Option DT)) :
    List (String × Option DT) :=
  registros.filterMap fun r =>
    match r.1 with
    | none => none
    | some s => if (pyStrip s) == "" then none else some ((pyStrip s), r.2)

/-- Specification-side definition, following the spec's wording "first
occurrence wins": keep the first pair for each distinct identifier, in input
order.  `seen` collects the identifiers already kept. -/
def firstPerKeyAux : List (String × Option DT) → List String →
    List (String × Option DT)
  | [], _ => []
  | p :: l, seen =>
    if seen.contains p.1 then firstPerKeyAux l seen
    else p :: firstPerKeyAux l (p.1 :: seen)

/-- Specification-side: the clean list the spec describes. -/
def firstPerKey (l : List (String × Option DT)) : List (String × Option DT) :=
  firstPerKeyAux l []

/-!
## Shared date-comparison rule

`sync_imeis` (postgres_connector.py) and `analizar_cambios_bd`
(email_connector.py) decide `fecha_cambio` by the same code: when both dates
are non-null, compare at date granularity (`.date()`); otherwise
`fecha_cliente != fecha_bd` (so both-null is no change, one-null is a change).
-/

def fechaCambio (fc fb : Option DT) : Bool :=
  match fc, fb with
  | some a, some b => decide (a.dateOf ≠ b.dateOf)
  | none, none => false
  | _, _ => true

/-!
## Change analyzer (`email_connector.py`, `EmailConnector.analizar_cambios_bd`)

The database query itself is collaborator I/O; its result (the rows
`(imei, fecha_cliente, activo)` for the requested identifiers) is a parameter.
-/

/-- One Excel record as `analizar_cambios_bd` consumes it:
`item['imei']` (required key) and `item.get('fecha_cliente')`. -/
structure AnItem where
  imei : String
  fecha : Option DT
deriving DecidableEq, Repr

/-- `existing_dict` built by iterating the query rows (a later row with the
same identifier overwrites an earlier one, as in a Python dict). -/
def exLookup (rowsDB : List (String × Option DT × Bool)) (i : String) :
    Option (Option DT × Bool) :=
  ((rowsDB.filter (fun r => r.1 == i)).getLast?).map (fun r => r.2)

/-- The classification loop: returns `(nuevos, actualizados, sin_cambios)`
(each in input order; `actualizados` entries carry `fecha_anterior` and
`estaba_inactivo`). -/
def clasificar (lk : String → Option (Option DT × Bool)) : List AnItem →
    List (String × Option DT) × List (String × Option DT × Option DT × Bool) ×
      List (String × Option DT)
  | [] => ([], [], [])
  | it :: l =>
    let r := clasificar lk l
    match lk it.imei with
    | none => ((it.imei, it.fecha) :: r.1, r.2.1, r.2.2)
    | some (fb, ab) =>
      if fechaCambio it.fecha fb || !ab then
        (r.1, (it.imei, it.fecha, fb, !ab) :: r.2.1, r.2.2)
      else
        (r.1, r.2.1, (it.imei, it.fecha) :: r.2.2)

/-- Result dict of `analizar_cambios_bd`. -/
structure Analisis where
  success : Bool
  nuevos : List (String × Option DT)
  actualizados : List (String × Option DT × Option DT × Bool)
  sinCambios : List (String × Option DT)
  total : Nat
  error : Option String
deriving DecidableEq, Repr

/-- `analizar_cambios_bd(excel_data, connector, schema, table)` with the
query's answer supplied as `rowsDB`.  Empty `excel_data` hits the
`not excel_data` guard and returns the early error result. -/
def analizarCambiosBD (excel : List AnItem)
    (rowsDB : List (String × Option DT × Bool)) : Analisis :=
  if excel.isEmpty then
    { success := false, nuevos := [], actualizados := [], sinCambios := [],
      total := 0,
      error := some "Conector PostgreSQL o datos del Excel no disponibles" }
  else
    let r := clasificar (exLookup rowsDB) excel
    { success := true, nuevos := r.1, actualizados := r.2.1,
      sinCambios := r.2.2, total := excel.length, error := none }

/-!
## Synchronizer (`postgres_connector.py`, `PostgresConnector.sync_imeis`)
-/

/-- One persisted row of the IMEI table.  The `id`, `creado`, `actualizado`
and `detalle` columns are not read back by any modelled logic and are
omitted (`detalle` is always written as the constant `'traiding_trustonic'`).
-/
structure Row where
  imei : String
  fecha : Option DT
  activo : Bool
deriving DecidableEq, Repr

/-- One element of `excel_data`: `item.get('imei')` and
`item.get('fecha_cliente')`. -/
structure ExcelItem where
  imei : Option String
  fecha : Option DT
deriving DecidableEq, Repr

/-- The truthiness filter `if item.get('imei')`: the identifier, unless
missing or the empty string. -/
def ExcelItem.key (it : ExcelItem) : Option String :=
  match it.imei with
  | some s => if s == "" then none else some s
  | none => none

/-- `excel_imeis`: the identifiers of the batch (set membership is list
membership). -/
def excelImeis (batch : List ExcelItem) : List String :=
  batch.filterMap ExcelItem.key

/-- The date of the first batch item carrying a given identifier (the one
whose insert succeeds when the identifier is new). -/
def fFirst (l : List ExcelItem) (i : String) : Option DT :=
  match l.find? (fun it => it.key == some i) with
  | some it => it.fecha
  | none => none

/-- Rows of the store carrying a given identifier. -/
def rowsWith (st : List Row) (i : String) : List Row :=
  st.filter (fun r => r.imei == i)

/-- `db_imeis_dict[i]`: built by iterating the SELECTed rows, so the last row
with identifier `i` wins (under the UNIQUE constraint there is at most one).
-/
def dbLookup (st : List Row) (i : String) : Option (Option DT × Bool) :=
  ((rowsWith st i).getLast?).map (fun r => (r.fecha, r.activo))

/-- `i in db_imeis`. -/
def storeHas (st : List Row) (i : String) : Bool :=
  st.any (fun r => r.imei == i)

/-- Injected row-write failures: `execute_query` returning `None` because the
INSERT/UPDATE raised (connection loss, constraint violation, ...). -/
structure Faults where
  failIns : String → Bool
  failUpd : String → Bool
  failDeact : String → Bool

def noFaults : Faults := ⟨fun _ => false, fun _ => false, fun _ => false⟩

/-- The SQL statements `sync_imeis` issues, as a trace.  `deact` is the
`UPDATE ... SET activo = FALSE` statement; there is no DELETE. -/
inductive WriteOp where
  | ins (imei : String)
  | upd (imei : String)
  | deact (imei : String)
deriving DecidableEq, Repr

/-- The SQL verb of each issued statement (`deact` is the
`UPDATE ... SET activo = FALSE` statement). -/
def WriteOp.sqlVerb : WriteOp → String
  | .ins _ => "INSERT"
  | .upd _ => "UPDATE"
  | .deact _ => "UPDATE"

/-- The result dict of `sync_imeis`, plus a model-only trace (`writeOps`) of
every SQL write statement issued (successful or not). -/
structure SyncResult where
  success : Bool
  nuevos : Nat
  actualizados : Nat
  desactivados : Nat
  total : Nat
  nuevosList : List (String × Option DT)
  actualizadosList : List (String × Option DT × Option DT × Bool)
  desactivadosList : List (String × Option DT)
  sinCambios : List (String × Option DT)
  errors : List String
  writeOps : List WriteOp
deriving DecidableEq, Repr

def initResult (total : Nat) : SyncResult :=
  { success := false, nuevos := 0, actualizados := 0, desactivados := 0,
    total := total, nuevosList := [], actualizadosList := [],
    desactivadosList := [], sinCambios := [], errors := [], writeOps := [] }

/-- The INSERT: fails when the UNIQUE constraint on `imei_serie` is violated
(the identifier is already present) or when a failure is injected; otherwise
appends the row with `activo = TRUE`. -/
def doInsert (fl : Faults) (st : List Row) (i : String) (f : Option DT) :
    Option (List Row) :=
  if storeHas st i then none
  else if fl.failIns i then none
  else some (st ++ [⟨i, f, true⟩])

/-- The UPDATE `SET fecha_cliente = %s, activo = TRUE WHERE imei_serie = %s`. -/
def doUpdate (fl : Faults) (st : List Row) (i : String) (f : Option DT) :
    Option (List Row) :=
  if fl.failUpd i then none
  else some (st.map fun r => if r.imei == i then { r with fecha := f, activo := true } else r)

/-- The UPDATE `SET activo = FALSE WHERE imei_serie = %s`. -/
def doDeact (fl : Faults) (st : List Row) (i : String) : Option (List Row) :=
  if fl.failDeact i then none
  else some (st.map fun r => if r.imei == i then { r with activo := false } else r)

/-- Case 1 of `sync_imeis`, one Excel item: insert when the identifier is
truthy and was absent from the database snapshot. -/
def p1Step (fl : Faults) (isN : String → Bool) (it : ExcelItem)
    (o : List Row × SyncResult) : List Row × SyncResult :=
  match it.key with
  | some i =>
    if isN i then
      let res1 := { o.2 with writeOps := o.2.writeOps ++ [WriteOp.ins i] }
      match doInsert fl o.1 i it.fecha with
      | some st2 =>
        (st2, { res1 with nuevos := res1.nuevos + 1,
                          nuevosList := res1.nuevosList ++ [(i, it.fecha)] })
      | none =>
        (o.1, { res1 with errors := res1.errors ++ ["Error al insertar IMEI: " ++ i] })
    else o
  | none => o

def phase1 (fl : Faults) (isN : String → Bool) :
    List ExcelItem → List Row × SyncResult → List Row × SyncResult
  | [], o => o
  | it :: l, o => phase1 fl isN l (p1Step fl isN it o)

/-- Case 2 of `sync_imeis`, one Excel item: for an identifier present in the
snapshot, update when the date changed (at date granularity) or the row was
inactive; otherwise record it under `sin_cambios`.  `lk` is the snapshot
`db_imeis_dict`. -/
def p2Step (fl : Faults) (lk : String → Option (Option DT × Bool))
    (it : ExcelItem) (o : List Row × SyncResult) : List Row × SyncResult :=
  match it.key with
  | some i =>
    match lk i with
    | some (fb, ab) =>
      if fechaCambio it.fecha fb || !ab then
        let res1 := { o.2 with writeOps := o.2.writeOps ++ [WriteOp.upd i] }
        match doUpdate fl o.1 i it.fecha with
        | some st2 =>
          (st2, { res1 with actualizados := res1.actualizados + 1,
                            actualizadosList := res1.actualizadosList ++ [(i, it.fecha, fb, !ab)] })
        | none =>
          (o.1, { res1 with errors := res1.errors ++ ["Error al actualizar IMEI: " ++ i] })
      else (o.1, { o.2 with sinCambios := o.2.sinCambios ++ [(i, it.fecha)] })
    | none => o
  | none => o

def phase2 (fl : Faults) (lk : String → Option (Option DT × Bool)) :
    List ExcelItem → List Row × SyncResult → List Row × SyncResult
  | [], o => o
  | it :: l, o => phase2 fl lk l (p2Step fl lk it o)

/-- `db_imeis_dict[i]['fecha_cliente']` (defined for every obsolete
identifier). -/
def lkFecha (lk : String → Option (Option DT × Bool)) (i : String) : Option DT :=
  match lk i with
  | some (f, _) => f
  | none => none

/-- Case 3 of `sync_imeis`, one obsolete identifier: mark inactive, never
delete. -/
def p3Step (fl : Faults) (lk : String → Option (Option DT × Bool)) (i : String)
    (o : List Row × SyncResult) : List Row × SyncResult :=
  let res1 := { o.2 with writeOps := o.2.writeOps ++ [WriteOp.deact i] }
  match doDeact fl o.1 i with
  | some st2 =>
    (st2, { res1 with desactivados := res1.desactivados + 1,
                      desactivadosList := res1.desactivadosList ++ [(i, lkFecha lk i)] })
  | none =>
    (o.1, { res1 with errors := res1.errors ++ ["Error al desactivar IMEI: " ++ i] })

def phase3 (fl : Faults) (lk : String → Option (Option DT × Bool)) :
    List String → List Row × SyncResult → List Row × SyncResult
  | [], o => o
  | i :: l, o => phase3 fl lk l (p3Step fl lk i o)

/-- `obsoletos_imeis = db_imeis - excel_imeis`, a set of identifiers; iterated
here in first-occurrence store order (no claim depends on the iteration
order of the Python set). -/
def obsoletosOf (store : List Row) (keys : List String) : List String :=
  ((store.map Row.imei).dedup).filter (fun i => !(keys.contains i))

/-- `sync_imeis(schema, table, excel_data)`.  `ensureOk` is the outcome of
`ensure_imei_table_exists`; when it fails the run aborts with the explanatory
error and no write.  Otherwise the database snapshot is read once and the
three cases run in order, collecting row-level failures in `errors`; the
final result carries `success = True`. -/
def syncImeis (fl : Faults) (ensureOk : Bool) (store : List Row)
    (batch : List ExcelItem) : List Row × SyncResult :=
  let res0 := initResult batch.length
  if ensureOk then
    let lk := fun i => dbLookup store i
    let isN := fun i => !(storeHas store i)
    let keys := excelImeis batch
    let o1 := phase1 fl isN batch (store, res0)
    let o2 := phase2 fl lk batch o1
    let o3 := phase3 fl lk (obsoletosOf store keys) o2
    (o3.1, { o3.2 with success := true })
  else
    (store, { res0 with errors := ["No se pudo asegurar la existencia de la tabla"] })

/-!
## Concrete inputs used by the witness theorems
-/

def dtEne1 : DT := ⟨2024, 1, 1, 0, 0, 0⟩

def dtEne2 : DT := ⟨2024, 1, 2, 0, 0, 0⟩

def dtEne3 : DT := ⟨2024, 1, 3, 0, 0, 0⟩

/-- The spec's duplicate-resolution example input. -/
def regsEjemplo : List (Option String × Option DT) :=
  [(some "A", some dtEne1), (some "A", some dtEne2), (some "B", some dtEne3)]

/-- Persisted `{"A","B","C"}`, all active. -/
def storeABC : List Row :=
  [⟨"A", some ⟨2025, 1, 1, 0, 0, 0⟩, true⟩, ⟨"B", none, true⟩, ⟨"C", none, true⟩]

/-- Extraction batch `{"A","B"}` (A with the same date at a different
time-of-day). -/
def batchAB : List ExcelItem :=
  [⟨some "A", some ⟨2025, 1, 1, 9, 30, 0⟩⟩, ⟨some "B", none⟩]

/-- Store for the error-handling witness: `"B"` persisted inactive, `"C"`
persisted active and absent from the batch. -/
def storeErr : List Row := [⟨"B", none, false⟩, ⟨"C", none, true⟩]

/-- Batch for the error-handling witness: `"A"` new, `"B"` existing (to be
reactivated), `"D"` new. -/
def batchErr : List ExcelItem :=
  [⟨some "A", none⟩, ⟨some "B", some ⟨2025, 2, 2, 0, 0, 0⟩⟩, ⟨some "D", none⟩]

/-- Injected failures for the error-handling witness: the insert of `"A"`,
the update of `"B"` and the deactivation of `"C"` all fail. -/
def faultsErr : Faults :=
  ⟨fun i => i == "A", fun i => i == "B", fun i => i == "C"⟩

/-- Analyzer witness input. -/
def excelAn : List AnItem :=
  [⟨"A", some ⟨2025, 1, 2, 0, 0, 0⟩⟩, ⟨"D", none⟩, ⟨"B", none⟩]

/-- Analyzer witness persisted rows. -/
def rowsAn : List (String × Option DT × Bool) :=
  [("A", some ⟨2025, 1, 1, 0, 0, 0⟩, true), ("B", none, false)]

/-!
## Theorems

### Date normalizer: C6, C7, C8, C10
-/

/-- C6: the date parser tries the fixed ordered `formatos` list,
month-day-first patterns before the day-month-first variants, and the first
matching format wins (`tryFormatos` stops on first success); the three
coverage inputs each parse to June 17, 2025 — the ambiguous-looking
`"6/17/2025 1:31:07 PM"` through the month-first pattern that is tried
first. -/
theorem C6_date_format_coverage :
    parsearFechaString "6/17/2025 1:31:07 PM" = some ⟨2025, 6, 17, 13, 31, 7⟩ ∧
    parsearFechaString "2025-06-17" = some ⟨2025, 6, 17, 0, 0, 0⟩ ∧
    parsearFechaString "17/06/2025 13:31:07" = some ⟨2025, 6, 17, 13, 31, 7⟩ ∧
    formatos.indexOf "%m/%d/%Y %I:%M:%S %p" < formatos.indexOf "%d/%m/%Y %I:%M:%S %p" ∧
    formatos.indexOf "%m/%d/%Y %H:%M:%S" < formatos.indexOf "%d/%m/%Y %H:%M:%S" ∧
    formatos.indexOf "%m/%d/%Y" < formatos.indexOf "%d/%m/%Y" ∧
    strptime "%m/%d/%Y %I:%M:%S %p" "6/17/2025 1:31:07 PM" =
      some ⟨2025, 6, 17, 13, 31, 7⟩ := by
  refine ⟨by decide, by decide, by decide, by decide, by decide, by decide, by decide⟩

/-- C7: the date normalizer is total and returns `None` instead of raising:
on null/NaN input, on a string matched by no format (the logged-warning
path), and on a value of an unsupported type. -/
theorem C7_parse_total_none_on_failure :
    (∀ tz, parsearFecha .vNone tz = none) ∧
    (∀ s tz, parsearFechaString (pyStrip s) = none → parsearFecha (.vStr s) tz = none) ∧
    (∀ tz, parsearFecha .vOther tz = none) := by
  refine ⟨fun _ => rfl, fun s tz h => ?_, fun _ => rfl⟩
  simp only [parsearFecha, h]

theorem C7_parse_total_none_on_failure_witness :
    parsearFechaString (pyStrip "not a date") = none ∧
    parsearFecha (.vStr "not a date") (some "America/Costa_Rica") = none :=
  ⟨by decide,
   C7_parse_total_none_on_failure.2.1 "not a date" (some "America/Costa_Rica") (by decide)⟩

/-- C8: when a timezone is supplied a naive parsed datetime gets it attached
with the wall clock unchanged; an already-aware datetime is returned
unmodified; with no timezone supplied naive results stay naive; parsed
strings are always naive and get the supplied timezone attached. -/
theorem C8_timezone_attach :
    (∀ dt z, parsearFecha (.vDatetime ⟨dt, none⟩) (some z) = some ⟨dt, some z⟩) ∧
    (∀ dt z zOld, parsearFecha (.vDatetime ⟨dt, some zOld⟩) (some z) = some ⟨dt, some zOld⟩) ∧
    (∀ dt, parsearFecha (.vDatetime ⟨dt, none⟩) none = some ⟨dt, none⟩) ∧
    (∀ dt z, parsearFecha (.vTimestamp ⟨dt, none⟩) (some z) = some ⟨dt, some z⟩) ∧
    (∀ dt z zOld, parsearFecha (.vTimestamp ⟨dt, some zOld⟩) (some z) = some ⟨dt, some zOld⟩) ∧
    (∀ s dt z, parsearFechaString (pyStrip s) = some dt →
      parsearFecha (.vStr s) (some z) = some ⟨dt, some z⟩) := by
  refine ⟨fun _ _ => rfl, fun _ _ _ => rfl, fun _ => rfl, fun _ _ => rfl,
    fun _ _ _ => rfl, fun s dt z h => ?_⟩
  simp only [parsearFecha, h, applyTz]

theorem C8_timezone_attach_witness :
    parsearFechaString (pyStrip "2025-06-17") = some ⟨2025, 6, 17, 0, 0, 0⟩ ∧
    parsearFecha (.vStr "2025-06-17") (some "America/Costa_Rica") =
      some ⟨⟨2025, 6, 17, 0, 0, 0⟩, some "America/Costa_Rica"⟩ :=
  ⟨by decide,
   C8_timezone_attach.2.2.2.2.2 "2025-06-17" ⟨2025, 6, 17, 0, 0, 0⟩
     "America/Costa_Rica" (by decide)⟩

/-- C10: in `"2025-06-17T13:31:07Z"` the trailing `Z` is matched as a literal
character (the `%Y-%m-%dT%H:%M:%S` pattern without it fails on unconverted
input), so the result is the naive wall-clock datetime, and a supplied
timezone is attached without any conversion from UTC. -/
theorem C10_trailing_Z_literal :
    strptime "%Y-%m-%dT%H:%M:%S" "2025-06-17T13:31:07Z" = none ∧
    strptime "%Y-%m-%dT%H:%M:%SZ" "2025-06-17T13:31:07Z" =
      some ⟨2025, 6, 17, 13, 31, 7⟩ ∧
    parsearFechaString "2025-06-17T13:31:07Z" = some ⟨2025, 6, 17, 13, 31, 7⟩ ∧
    parsearFecha (.vStr "2025-06-17T13:31:07Z") none =
      some ⟨⟨2025, 6, 17, 13, 31, 7⟩, none⟩ ∧
    (∀ z, parsearFecha (.vStr "2025-06-17T13:31:07Z") (some z) =
      some ⟨⟨2025, 6, 17, 13, 31, 7⟩, some z⟩) := by
  have h : parsearFechaString (pyStrip "2025-06-17T13:31:07Z") =
      some ⟨2025, 6, 17, 13, 31, 7⟩ := by decide
  refine ⟨by decide, by decide, by decide, ?_, fun z => ?_⟩
  · simp only [parsearFecha, h, applyTz]
  · simp only [parsearFecha, h, applyTz]

/-!
### Duplicate resolver: C5
-/

theorem keyedRegs_cons_none (f : Option DT) (rest : List (Option String × Option DT)) :
    keyedRegs ((none, f) :: rest) = keyedRegs rest := rfl

theorem keyedRegs_cons_blank {s : String} (f : Option DT)
    (rest : List (Option String × Option DT)) (h : (pyStrip s) = "") :
    keyedRegs ((some s, f) :: rest) = keyedRegs rest := by
  simp [keyedRegs, List.filterMap_cons, h]

theorem keyedRegs_cons_ok {s : String} (f : Option DT)
    (rest : List (Option String × Option DT)) (h : ¬ (pyStrip s) = "") :
    keyedRegs ((some s, f) :: rest) = ((pyStrip s), f) :: keyedRegs rest := by
  simp [keyedRegs, List.filterMap_cons, h]

theorem limpiarAux_cons_none (f : Option DT) (rest : List (Option String × Option DT))
    (seen : List String) :
    limpiarAux ((none, f) :: rest) seen = limpiarAux rest seen := rfl

theorem limpiarAux_cons_blank {s : String} (f : Option DT)
    (rest : List (Option String × Option DT)) (seen : List String) (h : (pyStrip s) = "") :
    limpiarAux ((some s, f) :: rest) seen = limpiarAux rest seen := by
  simp [limpiarAux, h]

theorem limpiarAux_cons_new {s : String} (f : Option DT)
    (rest : List (Option String × Option DT)) (seen : List String)
    (h : ¬ (pyStrip s) = "") (hc : seen.count (pyStrip s) = 0) :
    limpiarAux ((some s, f) :: rest) seen =
      (((pyStrip s), f) :: (limpiarAux rest (seen ++ [(pyStrip s)])).1,
       (limpiarAux rest (seen ++ [(pyStrip s)])).2) := by
  simp [limpiarAux, h, hc]

theorem limpiarAux_cons_dup {s : String} (f : Option DT)
    (rest : List (Option String × Option DT)) (seen : List String)
    (h : ¬ (pyStrip s) = "") (hc : 0 < seen.count (pyStrip s)) :
    limpiarAux ((some s, f) :: rest) seen =
      ((limpiarAux rest (seen ++ [(pyStrip s)])).1,
       ⟨(pyStrip s), f, seen.count (pyStrip s) + 1⟩ :: (limpiarAux rest (seen ++ [(pyStrip s)])).2) := by
  simp only [limpiarAux]
  rw [if_neg (show ¬(((pyStrip s) == "") = true) by simpa using h), if_pos hc]

theorem count_append_single_pos (seen : List String) (j i : String) :
    0 < (seen ++ [j]).count i ↔ 0 < seen.count i ∨ i = j := by
  rw [List.count_append]
  rcases eq_or_ne i j with hi | hi
  · subst hi; simp [List.count_singleton]
  · have hz : List.count i [j] = 0 := by
      rw [List.count_eq_zero]
      simp [hi]
    simp [hz, hi]

theorem limpiarAux_clean :
    ∀ (regs : List (Option String × Option DT)) (seen seen2 : List String),
      (∀ i, 0 < seen.count i ↔ i ∈ seen2) →
      (limpiarAux regs seen).1 = firstPerKeyAux (keyedRegs regs) seen2 := by
  intro regs
  induction regs with
  | nil => intro seen seen2 _; rfl
  | cons r rest ih =>
    intro seen seen2 h
    obtain ⟨im, f⟩ := r
    cases im with
    | none =>
      rw [limpiarAux_cons_none, keyedRegs_cons_none]
      exact ih seen seen2 h
    | some s =>
      by_cases hs : (pyStrip s) = ""
      · rw [limpiarAux_cons_blank f rest seen hs, keyedRegs_cons_blank f rest hs]
        exact ih seen seen2 h
      · rcases Nat.eq_zero_or_pos (seen.count (pyStrip s)) with hc | hc
        · have h2 : ¬ (pyStrip s) ∈ seen2 := by
            rw [← h (pyStrip s), hc]; omega
          rw [limpiarAux_cons_new f rest seen hs hc, keyedRegs_cons_ok f rest hs,
            firstPerKeyAux, if_neg (by simpa using h2)]
          have hnext : ∀ i, 0 < (seen ++ [(pyStrip s)]).count i ↔ i ∈ (pyStrip s) :: seen2 := by
            intro i
            rw [count_append_single_pos, h i, List.mem_cons, or_comm]
          simpa using ih (seen ++ [(pyStrip s)]) ((pyStrip s) :: seen2) hnext
        · have h2 : (pyStrip s) ∈ seen2 := (h (pyStrip s)).mp hc
          rw [limpiarAux_cons_dup f rest seen hs hc, keyedRegs_cons_ok f rest hs,
            firstPerKeyAux, if_pos (by simpa using h2)]
          have hnext : ∀ i, 0 < (seen ++ [(pyStrip s)]).count i ↔ i ∈ seen2 := by
            intro i
            rw [count_append_single_pos, h i]
            constructor
            · rintro (hin | rfl)
              · exact hin
              · exact h2
            · exact Or.inl
          exact ih (seen ++ [(pyStrip s)]) seen2 hnext

theorem firstPerKeyAux_nodup :
    ∀ (l : List (String × Option DT)) (seen : List String),
      ((firstPerKeyAux l seen).map Prod.fst).Nodup ∧
      ∀ p ∈ firstPerKeyAux l seen, ¬ p.1 ∈ seen := by
  intro l
  induction l with
  | nil => intro seen; exact ⟨List.nodup_nil, by simp [firstPerKeyAux]⟩
  | cons p l ih =>
    intro seen
    by_cases hp : p.1 ∈ seen
    · rw [firstPerKeyAux, if_pos (by simpa using hp)]
      exact ih seen
    · rw [firstPerKeyAux, if_neg (by simpa using hp)]
      obtain ⟨ihn, ihs⟩ := ih (p.1 :: seen)
      refine ⟨?_, ?_⟩
      · simp only [List.map_cons, List.nodup_cons]
        refine ⟨?_, ihn⟩
        intro hmem
        obtain ⟨q, hq, hq1⟩ := List.mem_map.mp hmem
        exact ihs q hq (hq1 ▸ List.mem_cons_self _ _)
      · intro q hq
        rcases List.mem_cons.mp hq with rfl | hq2
        · exact hp
        · intro hqs
          exact ihs q hq2 (List.mem_cons_of_mem _ hqs)

theorem limpiarAux_length :
    ∀ (regs : List (Option String × Option DT)) (seen : List String),
      (limpiarAux regs seen).1.length + (limpiarAux regs seen).2.length =
        (keyedRegs regs).length := by
  intro regs
  induction regs with
  | nil => intro seen; rfl
  | cons r rest ih =>
    intro seen
    obtain ⟨im, f⟩ := r
    cases im with
    | none =>
      rw [limpiarAux_cons_none, keyedRegs_cons_none]
      exact ih seen
    | some s =>
      by_cases hs : (pyStrip s) = ""
      · rw [limpiarAux_cons_blank f rest seen hs, keyedRegs_cons_blank f rest hs]
        exact ih seen
      · rcases Nat.eq_zero_or_pos (seen.count (pyStrip s)) with hc | hc
        · rw [limpiarAux_cons_new f rest seen hs hc, keyedRegs_cons_ok f rest hs]
          have := ih (seen ++ [(pyStrip s)])
          simp only [List.length_cons]
          omega
        · rw [limpiarAux_cons_dup f rest seen hs hc, keyedRegs_cons_ok f rest hs]
          have := ih (seen ++ [(pyStrip s)])
          simp only [List.length_cons]
          omega

theorem limpiarAux_ocurrencia :
    ∀ (regs : List (Option String × Option DT)) (seen : List String),
      ∀ e ∈ (limpiarAux regs seen).2, 2 ≤ e.ocurrencia := by
  intro regs
  induction regs with
  | nil => intro seen e he; simp [limpiarAux] at he
  | cons r rest ih =>
    intro seen e he
    obtain ⟨im, f⟩ := r
    cases im with
    | none =>
      rw [limpiarAux_cons_none] at he
      exact ih seen e he
    | some s =>
      by_cases hs : (pyStrip s) = ""
      · rw [limpiarAux_cons_blank f rest seen hs] at he
        exact ih seen e he
      · rcases Nat.eq_zero_or_pos (seen.count (pyStrip s)) with hc | hc
        · rw [limpiarAux_cons_new f rest seen hs hc] at he
          exact ih (seen ++ [(pyStrip s)]) e he
        · rw [limpiarAux_cons_dup f rest seen hs hc] at he
          rcases List.mem_cons.mp he with rfl | he2
          · simp only
            omega
          · exact ih (seen ++ [(pyStrip s)]) e he2

theorem limpiarAux_countP :
    ∀ (regs : List (Option String × Option DT)) (seen : List String) (i : String),
      (limpiarAux regs seen).2.countP (fun e => e.imei == i) +
        (limpiarAux regs seen).1.countP (fun p => p.1 == i) =
        (keyedRegs regs).countP (fun p => p.1 == i) := by
  intro regs
  induction regs with
  | nil => intro seen i; rfl
  | cons r rest ih =>
    intro seen i
    obtain ⟨im, f⟩ := r
    cases im with
    | none =>
      rw [limpiarAux_cons_none, keyedRegs_cons_none]
      exact ih seen i
    | some s =>
      by_cases hs : (pyStrip s) = ""
      · rw [limpiarAux_cons_blank f rest seen hs, keyedRegs_cons_blank f rest hs]
        exact ih seen i
      · rcases Nat.eq_zero_or_pos (seen.count (pyStrip s)) with hc | hc
        · rw [limpiarAux_cons_new f rest seen hs hc, keyedRegs_cons_ok f rest hs]
          have := ih (seen ++ [(pyStrip s)]) i
          simp only [List.countP_cons]
          omega
        · rw [limpiarAux_cons_dup f rest seen hs hc, keyedRegs_cons_ok f rest hs]
          have := ih (seen ++ [(pyStrip s)]) i
          simp only [List.countP_cons]
          omega

/-- C5: for every ordered input list, the clean list keeps exactly one entry
per distinct trimmed identifier, in input order, with the date of its first
occurrence (it equals the spec-side `firstPerKey` of the valid pairs); its
identifiers are pairwise distinct; the duplicate report holds one entry per
later occurrence (the lengths add up to the number of valid pairs and the
per-identifier counts match), each recording an occurrence index of at
least 2; records whose identifier is `None` or blank after trim reach
neither output. -/
theorem C5_duplicate_resolution (registros : List (Option String × Option DT)) :
    (limpiarDuplicados registros).1 = firstPerKey (keyedRegs registros) ∧
    ((limpiarDuplicados registros).1.map Prod.fst).Nodup ∧
    (limpiarDuplicados registros).1.length + (limpiarDuplicados registros).2.length =
      (keyedRegs registros).length ∧
    (∀ e ∈ (limpiarDuplicados registros).2, 2 ≤ e.ocurrencia) ∧
    (∀ i : String,
      (limpiarDuplicados registros).2.countP (fun e => e.imei == i) +
        (limpiarDuplicados registros).1.countP (fun p => p.1 == i) =
        (keyedRegs registros).countP (fun p => p.1 == i)) := by
  have hclean : (limpiarDuplicados registros).1 = firstPerKey (keyedRegs registros) :=
    limpiarAux_clean registros [] [] (by simp)
  refine ⟨hclean, ?_, limpiarAux_length registros [],
    limpiarAux_ocurrencia registros [], limpiarAux_countP registros []⟩
  rw [hclean]
  exact (firstPerKeyAux_nodup (keyedRegs registros) []).1

/-- Witness for C5 at the spec's example
`[("A", d1), ("A", d2), ("B", d3)]`. -/
theorem C5_duplicate_resolution_witness :
    (limpiarDuplicados regsEjemplo).1 = [("A", some dtEne1), ("B", some dtEne3)] ∧
    (limpiarDuplicados regsEjemplo).2 = [⟨"A", some dtEne2, 2⟩] ∧
    (⟨"A", some dtEne2, 2⟩ : DupEntry) ∈ (limpiarDuplicados regsEjemplo).2 ∧
    2 ≤ (⟨"A", some dtEne2, 2⟩ : DupEntry).ocurrencia ∧
    (limpiarDuplicados regsEjemplo).2.countP (fun e => e.imei == "A") +
      (limpiarDuplicados regsEjemplo).1.countP (fun p => p.1 == "A") =
      (keyedRegs regsEjemplo).countP (fun p => p.1 == "A") :=
  ⟨by decide, by decide, by decide,
   (C5_duplicate_resolution regsEjemplo).2.2.2.1 ⟨"A", some dtEne2, 2⟩ (by decide),
   (C5_duplicate_resolution regsEjemplo).2.2.2.2 "A"⟩

/-!
### Change analyzer: C3
-/

theorem clasificar_eq (lk : String → Option (Option DT × Bool)) (l : List AnItem) :
    clasificar lk l =
      (l.filterMap (fun it =>
        match lk it.imei with
        | none => some (it.imei, it.fecha)
        | some _ => none),
       l.filterMap (fun it =>
        match lk it.imei with
        | none => none
        | some (fb, ab) =>
          if fechaCambio it.fecha fb || !ab then some (it.imei, it.fecha, fb, !ab)
          else none),
       l.filterMap (fun it =>
        match lk it.imei with
        | none => none
        | some (fb, ab) =>
          if fechaCambio it.fecha fb || !ab then none
          else some (it.imei, it.fecha))) := by
  induction l with
  | nil => rfl
  | cons it l ih =>
    simp only [clasificar, ih, List.filterMap_cons]
    cases hk : lk it.imei with
    | none => rfl
    | some v =>
      obtain ⟨fb, ab⟩ := v
      cases hb : (fechaCambio it.fecha fb || !ab) with
      | false => simp only [hb]; simp
      | true => simp only [hb]; simp

theorem clasificar_countP (lk : String → Option (Option DT × Bool)) (l : List AnItem)
    (j : String) :
    (clasificar lk l).1.countP (fun p => p.1 == j) +
      (clasificar lk l).2.1.countP (fun p => p.1 == j) +
      (clasificar lk l).2.2.countP (fun p => p.1 == j) =
      l.countP (fun it => it.imei == j) := by
  induction l with
  | nil => rfl
  | cons it l ih =>
    simp only [clasificar, List.countP_cons]
    cases hk : lk it.imei with
    | none =>
      simp only [List.countP_cons]
      omega
    | some v =>
      obtain ⟨fb, ab⟩ := v
      cases hb : (fechaCambio it.fecha fb || !ab) with
      | false =>
        simp only [hb]
        simp only [Bool.false_eq_true, if_false, List.countP_cons]
        omega
      | true =>
        simp only [hb, if_true, List.countP_cons]
        omega

/-- C3: the analyzer classifies every extracted identifier by exactly the
stated rule — absent from the persisted lookup means `nuevos`; present means
`actualizados` exactly when the date changed at date granularity (raw
comparison when either is null) or the persisted row was inactive, carrying
`fecha_anterior` and `estaba_inactivo`, and `sin_cambios` otherwise — and,
for a deduplicated batch, each extracted identifier lands in exactly one of
the three outputs. -/
theorem C3_three_way_classification (excel : List AnItem)
    (rowsDB : List (String × Option DT × Bool)) :
    (analizarCambiosBD excel rowsDB).nuevos =
      excel.filterMap (fun it =>
        match exLookup rowsDB it.imei with
        | none => some (it.imei, it.fecha)
        | some _ => none) ∧
    (analizarCambiosBD excel rowsDB).actualizados =
      excel.filterMap (fun it =>
        match exLookup rowsDB it.imei with
        | none => none
        | some (fb, ab) =>
          if fechaCambio it.fecha fb || !ab then some (it.imei, it.fecha, fb, !ab)
          else none) ∧
    (analizarCambiosBD excel rowsDB).sinCambios =
      excel.filterMap (fun it =>
        match exLookup rowsDB it.imei with
        | none => none
        | some (fb, ab) =>
          if fechaCambio it.fecha fb || !ab then none
          else some (it.imei, it.fecha)) ∧
    ((excel.map AnItem.imei).Nodup →
      ∀ it ∈ excel,
        (analizarCambiosBD excel rowsDB).nuevos.countP (fun p => p.1 == it.imei) +
          (analizarCambiosBD excel rowsDB).actualizados.countP (fun p => p.1 == it.imei) +
          (analizarCambiosBD excel rowsDB).sinCambios.countP (fun p => p.1 == it.imei) = 1) := by
  by_cases hne : excel.isEmpty
  · have hx : excel = [] := List.isEmpty_iff.mp hne
    subst hx
    refine ⟨rfl, rfl, rfl, ?_⟩
    intro _ it hit
    simp at hit
  · have hdef : analizarCambiosBD excel rowsDB =
        { success := true, nuevos := (clasificar (exLookup rowsDB) excel).1,
          actualizados := (clasificar (exLookup rowsDB) excel).2.1,
          sinCambios := (clasificar (exLookup rowsDB) excel).2.2,
          total := excel.length, error := none } := by
      simp [analizarCambiosBD, hne]
    rw [hdef]
    have hc := clasificar_eq (exLookup rowsDB) excel
    refine ⟨by rw [hc], by rw [hc], by rw [hc], ?_⟩
    intro hnd it hit
    have hcount := clasificar_countP (exLookup rowsDB) excel it.imei
    have hmem : it.imei ∈ excel.map AnItem.imei := List.mem_map_of_mem _ hit
    have h1 : (excel.map AnItem.imei).count it.imei = 1 :=
      List.count_eq_one_of_mem hnd hmem
    have h2 : excel.countP (fun x => x.imei == it.imei) = 1 := by
      rw [List.count_eq_countP] at h1
      rw [← h1, List.countP_map]
      rfl
    simp only
    omega

/-- Witness for C3 at a mixed batch: `"A"` updated by date change, `"D"`
new, `"B"` updated because it was inactive. -/
theorem C3_three_way_classification_witness :
    (analizarCambiosBD excelAn rowsAn).nuevos = [("D", none)] ∧
    (analizarCambiosBD excelAn rowsAn).actualizados =
      [("A", some ⟨2025, 1, 2, 0, 0, 0⟩, some ⟨2025, 1, 1, 0, 0, 0⟩, false),
       ("B", none, none, true)] ∧
    (analizarCambiosBD excelAn rowsAn).sinCambios = [] ∧
    (excelAn.map AnItem.imei).Nodup ∧
    (analizarCambiosBD excelAn rowsAn).nuevos.countP (fun p => p.1 == "A") +
      (analizarCambiosBD excelAn rowsAn).actualizados.countP (fun p => p.1 == "A") +
      (analizarCambiosBD excelAn rowsAn).sinCambios.countP (fun p => p.1 == "A") = 1 :=
  ⟨by decide, by decide, by decide, by decide,
   (C3_three_way_classification excelAn rowsAn).2.2.2 (by decide)
     ⟨"A", some ⟨2025, 1, 2, 0, 0, 0⟩⟩ (by decide)⟩

/-!
### Synchronizer: basic store and fold lemmas
-/

theorem storeHas_true_iff (st : List Row) (i : String) :
    storeHas st i = true ↔ rowsWith st i ≠ [] := by
  simp only [storeHas, rowsWith, List.any_eq_true, ne_eq, List.filter_eq_nil_iff]
  constructor
  · rintro ⟨r, hr, hb⟩ hall
    exact hall r hr hb
  · intro h
    by_contra hn
    push_neg at hn
    exact h (fun r hr hb => hn r hr hb)

theorem storeHas_false_iff (st : List Row) (i : String) :
    storeHas st i = false ↔ rowsWith st i = [] := by
  cases hb : storeHas st i with
  | false =>
    simp only [true_iff]
    by_contra hne
    rw [(storeHas_true_iff st i).mpr hne] at hb
    exact Bool.noConfusion hb
  | true =>
    simp only [Bool.true_eq_false, false_iff]
    exact (storeHas_true_iff st i).mp hb

theorem rowsWith_append_single (st : List Row) (r : Row) (i : String) :
    rowsWith (st ++ [r]) i = rowsWith st i ++ if r.imei == i then [r] else [] := by
  simp only [rowsWith, List.filter_append, List.filter]
  cases h : (r.imei == i) <;> simp

theorem rowsWith_map (g : Row → Row) (hg : ∀ r, (g r).imei = r.imei)
    (st : List Row) (i : String) :
    rowsWith (st.map g) i = (rowsWith st i).map g := by
  induction st with
  | nil => rfl
  | cons r st ih =>
    simp only [rowsWith, List.map_cons, List.filter_cons] at *
    rw [hg r]
    cases h : (r.imei == i) <;> simp [ih]

theorem rowsWith_map_id (g : Row → Row) (st : List Row) (i : String)
    (h : ∀ r ∈ rowsWith st i, g r = r) : (rowsWith st i).map g = rowsWith st i := by
  rw [List.map_congr_left h]
  exact List.map_id' _

theorem rowsWith_mem_imei (st : List Row) (r : Row) (hr : r ∈ rowsWith st i) :
    r ∈ st ∧ r.imei = i := by
  simp only [rowsWith, List.mem_filter, beq_iff_eq] at hr
  exact hr

theorem mem_rowsWith (st : List Row) (r : Row) (hr : r ∈ st) :
    r ∈ rowsWith st r.imei := by
  simp [rowsWith, List.mem_filter, hr]

theorem dbLookup_singleton (st : List Row) (i : String) (r : Row)
    (h : rowsWith st i = [r]) : dbLookup st i = some (r.fecha, r.activo) := by
  simp [dbLookup, h]

theorem dbLookup_none_iff (st : List Row) (i : String) :
    dbLookup st i = none ↔ rowsWith st i = [] := by
  cases h : rowsWith st i with
  | nil => simp [dbLookup, h]
  | cons r l =>
    simp only [dbLookup, h]
    constructor
    · intro hc
      rw [Option.map_eq_none'] at hc
      exact absurd hc (by simp [List.getLast?_eq_none_iff])
    · intro hc
      exact absurd hc (by simp)

theorem nodup_rowsWith_singleton (st : List Row) (i : String)
    (hnd : (st.map Row.imei).Nodup) (hh : storeHas st i = true) :
    ∃ r, rowsWith st i = [r] := by
  induction st with
  | nil => simp [storeHas] at hh
  | cons r st ih =>
    simp only [List.map_cons, List.nodup_cons] at hnd
    by_cases he : r.imei = i
    · refine ⟨r, ?_⟩
      have hrest : rowsWith st i = [] := by
        simp only [rowsWith, List.filter_eq_nil_iff, beq_iff_eq]
        intro a ha hai
        apply hnd.1
        have hm : a.imei ∈ List.map Row.imei st := List.mem_map_of_mem Row.imei ha
        rwa [hai, ← he] at hm
      have hfil : st.filter (fun r => r.imei == i) = [] := hrest
      simp only [rowsWith, List.filter_cons]
      rw [if_pos (by simp [he]), hfil]
    · have hh2 : storeHas st i = true := by
        simp only [storeHas, List.any_cons] at hh
        rcases Bool.or_eq_true_iff.mp hh with h1 | h2
        · exact absurd (beq_iff_eq.mp h1) he
        · exact h2
      obtain ⟨x, hx⟩ := ih hnd.2 hh2
      refine ⟨x, ?_⟩
      simp only [rowsWith, List.filter_cons]
      rw [show (r.imei == i) = false from by simpa using he]
      exact hx

theorem phase1_ind_mem (fl : Faults) (isN : String → Bool)
    (P : List Row × SyncResult → Prop) :
    ∀ (l : List ExcelItem) (o : List Row × SyncResult),
      (∀ it ∈ l, ∀ o', P o' → P (p1Step fl isN it o')) → P o →
      P (phase1 fl isN l o) := by
  intro l
  induction l with
  | nil => intro o _ h; exact h
  | cons it l ih =>
    intro o hstep h
    rw [phase1]
    exact ih _ (fun x hx => hstep x (List.mem_cons_of_mem _ hx))
      (hstep it (List.mem_cons_self _ _) o h)

theorem phase2_ind_mem (fl : Faults) (lk : String → Option (Option DT × Bool))
    (P : List Row × SyncResult → Prop) :
    ∀ (l : List ExcelItem) (o : List Row × SyncResult),
      (∀ it ∈ l, ∀ o', P o' → P (p2Step fl lk it o')) → P o →
      P (phase2 fl lk l o) := by
  intro l
  induction l with
  | nil => intro o _ h; exact h
  | cons it l ih =>
    intro o hstep h
    rw [phase2]
    exact ih _ (fun x hx => hstep x (List.mem_cons_of_mem _ hx))
      (hstep it (List.mem_cons_self _ _) o h)

theorem phase3_ind_mem (fl : Faults) (lk : String → Option (Option DT × Bool))
    (P : List Row × SyncResult → Prop) :
    ∀ (obs : List String) (o : List Row × SyncResult),
      (∀ i ∈ obs, ∀ o', P o' → P (p3Step fl lk i o')) → P o →
      P (phase3 fl lk obs o) := by
  intro obs
  induction obs with
  | nil => intro o _ h; exact h
  | cons i obs ih =>
    intro o hstep h
    rw [phase3]
    exact ih _ (fun x hx => hstep x (List.mem_cons_of_mem _ hx))
      (hstep i (List.mem_cons_self _ _) o h)

theorem p1Step_key_none (fl : Faults) (isN : String → Bool) (it : ExcelItem)
    (o : List Row × SyncResult) (h : it.key = none) : p1Step fl isN it o = o := by
  simp [p1Step, h]

theorem p1Step_not_new (fl : Faults) (isN : String → Bool) (it : ExcelItem)
    (o : List Row × SyncResult) {i : String} (h : it.key = some i)
    (hN : isN i = false) : p1Step fl isN it o = o := by
  simp [p1Step, h, hN]

theorem p1Step_ins_dup (fl : Faults) (isN : String → Bool) (it : ExcelItem)
    (o : List Row × SyncResult) {i : String} (h : it.key = some i)
    (hN : isN i = true) (hhas : storeHas o.1 i = true) :
    p1Step fl isN it o =
      (o.1, { o.2 with writeOps := o.2.writeOps ++ [WriteOp.ins i],
                       errors := o.2.errors ++ ["Error al insertar IMEI: " ++ i] }) := by
  simp [p1Step, h, hN, doInsert, hhas]

theorem p1Step_ins_fail (fl : Faults) (isN : String → Bool) (it : ExcelItem)
    (o : List Row × SyncResult) {i : String} (h : it.key = some i)
    (hN : isN i = true) (hhas : storeHas o.1 i = false) (hfl : fl.failIns i = true) :
    p1Step fl isN it o =
      (o.1, { o.2 with writeOps := o.2.writeOps ++ [WriteOp.ins i],
                       errors := o.2.errors ++ ["Error al insertar IMEI: " ++ i] }) := by
  simp [p1Step, h, hN, doInsert, hhas, hfl]

theorem p1Step_ins_ok (fl : Faults) (isN : String → Bool) (it : ExcelItem)
    (o : List Row × SyncResult) {i : String} (h : it.key = some i)
    (hN : isN i = true) (hhas : storeHas o.1 i = false) (hfl : fl.failIns i = false) :
    p1Step fl isN it o =
      (o.1 ++ [⟨i, it.fecha, true⟩],
       { o.2 with writeOps := o.2.writeOps ++ [WriteOp.ins i],
                  nuevos := o.2.nuevos + 1,
                  nuevosList := o.2.nuevosList ++ [(i, it.fecha)] }) := by
  simp [p1Step, h, hN, doInsert, hhas, hfl]

theorem p2Step_key_none (fl : Faults) (lk : String → Option (Option DT × Bool))
    (it : ExcelItem) (o : List Row × SyncResult) (h : it.key = none) :
    p2Step fl lk it o = o := by
  simp [p2Step, h]

theorem p2Step_lk_none (fl : Faults) (lk : String → Option (Option DT × Bool))
    (it : ExcelItem) (o : List Row × SyncResult) {i : String} (h : it.key = some i)
    (hlk : lk i = none) : p2Step fl lk it o = o := by
  simp [p2Step, h, hlk]

theorem p2Step_unchanged (fl : Faults) (lk : String → Option (Option DT × Bool))
    (it : ExcelItem) (o : List Row × SyncResult) {i : String} {fb : Option DT}
    {ab : Bool} (h : it.key = some i) (hlk : lk i = some (fb, ab))
    (hc : (fechaCambio it.fecha fb || !ab) = false) :
    p2Step fl lk it o =
      (o.1, { o.2 with sinCambios := o.2.sinCambios ++ [(i, it.fecha)] }) := by
  simp [p2Step, h, hlk, hc]

theorem p2Step_upd_fail (fl : Faults) (lk : String → Option (Option DT × Bool))
    (it : ExcelItem) (o : List Row × SyncResult) {i : String} {fb : Option DT}
    {ab : Bool} (h : it.key = some i) (hlk : lk i = some (fb, ab))
    (hc : (fechaCambio it.fecha fb || !ab) = true) (hfl : fl.failUpd i = true) :
    p2Step fl lk it o =
      (o.1, { o.2 with writeOps := o.2.writeOps ++ [WriteOp.upd i],
                       errors := o.2.errors ++ ["Error al actualizar IMEI: " ++ i] }) := by
  simp [p2Step, h, hlk, hc, doUpdate, hfl]

theorem p2Step_upd_ok (fl : Faults) (lk : String → Option (Option DT × Bool))
    (it : ExcelItem) (o : List Row × SyncResult) {i : String} {fb : Option DT}
    {ab : Bool} (h : it.key = some i) (hlk : lk i = some (fb, ab))
    (hc : (fechaCambio it.fecha fb || !ab) = true) (hfl : fl.failUpd i = false) :
    p2Step fl lk it o =
      (o.1.map (fun r => if r.imei == i then { r with fecha := it.fecha, activo := true } else r),
       { o.2 with writeOps := o.2.writeOps ++ [WriteOp.upd i],
                  actualizados := o.2.actualizados + 1,
                  actualizadosList := o.2.actualizadosList ++ [(i, it.fecha, fb, !ab)] }) := by
  simp [p2Step, h, hlk, hc, doUpdate, hfl]

theorem p3Step_fail (fl : Faults) (lk : String → Option (Option DT × Bool))
    (i : String) (o : List Row × SyncResult) (hfl : fl.failDeact i = true) :
    p3Step fl lk i o =
      (o.1, { o.2 with writeOps := o.2.writeOps ++ [WriteOp.deact i],
                       errors := o.2.errors ++ ["Error al desactivar IMEI: " ++ i] }) := by
  simp [p3Step, doDeact, hfl]

theorem p3Step_ok (fl : Faults) (lk : String → Option (Option DT × Bool))
    (i : String) (o : List Row × SyncResult) (hfl : fl.failDeact i = false) :
    p3Step fl lk i o =
      (o.1.map (fun r => if r.imei == i then { r with activo := false } else r),
       { o.2 with writeOps := o.2.writeOps ++ [WriteOp.deact i],
                  desactivados := o.2.desactivados + 1,
                  desactivadosList := o.2.desactivadosList ++ [(i, lkFecha lk i)] }) := by
  simp [p3Step, doDeact, hfl]

theorem p1Step_store (fl : Faults) (isN : String → Bool) (it : ExcelItem)
    (o : List Row × SyncResult) :
    (p1Step fl isN it o).1 = o.1 ∨
    ∃ j, it.key = some j ∧ isN j = true ∧ storeHas o.1 j = false ∧
      (p1Step fl isN it o).1 = o.1 ++ [⟨j, it.fecha, true⟩] := by
  cases hk : it.key with
  | none => left; rw [p1Step_key_none fl isN it o hk]
  | some j =>
    cases hN : isN j with
    | false => left; rw [p1Step_not_new fl isN it o hk hN]
    | true =>
      cases hhas : storeHas o.1 j with
      | true => left; rw [p1Step_ins_dup fl isN it o hk hN hhas]
      | false =>
        cases hfl : fl.failIns j with
        | true => left; rw [p1Step_ins_fail fl isN it o hk hN hhas hfl]
        | false =>
          right
          exact ⟨j, rfl, hN, hhas, by rw [p1Step_ins_ok fl isN it o hk hN hhas hfl]⟩

theorem p2Step_store (fl : Faults) (lk : String → Option (Option DT × Bool))
    (it : ExcelItem) (o : List Row × SyncResult) :
    (p2Step fl lk it o).1 = o.1 ∨
    ∃ j fb ab, it.key = some j ∧ lk j = some (fb, ab) ∧
      (p2Step fl lk it o).1 =
        o.1.map (fun r => if r.imei == j then { r with fecha := it.fecha, activo := true } else r) := by
  cases hk : it.key with
  | none => left; rw [p2Step_key_none fl lk it o hk]
  | some j =>
    cases hlk : lk j with
    | none => left; rw [p2Step_lk_none fl lk it o hk hlk]
    | some v =>
      obtain ⟨fb, ab⟩ := v
      cases hc : (fechaCambio it.fecha fb || !ab) with
      | false => left; rw [p2Step_unchanged fl lk it o hk hlk hc]
      | true =>
        cases hfl : fl.failUpd j with
        | true => left; rw [p2Step_upd_fail fl lk it o hk hlk hc hfl]
        | false =>
          right
          exact ⟨j, fb, ab, rfl, hlk, by rw [p2Step_upd_ok fl lk it o hk hlk hc hfl]⟩

theorem p3Step_store (fl : Faults) (lk : String → Option (Option DT × Bool))
    (i : String) (o : List Row × SyncResult) :
    (p3Step fl lk i o).1 = o.1 ∨
    (p3Step fl lk i o).1 =
      o.1.map (fun r => if r.imei == i then { r with activo := false } else r) := by
  cases hfl : fl.failDeact i with
  | true => left; rw [p3Step_fail fl lk i o hfl]
  | false => right; rw [p3Step_ok fl lk i o hfl]

theorem rowsWith_upd_ne (st : List Row) (i j : String) (f : Option DT) (hne : j ≠ i) :
    rowsWith (st.map (fun r => if r.imei == j then { r with fecha := f, activo := true } else r)) i =
      rowsWith st i := by
  rw [rowsWith_map _ (fun r => by cases h : (r.imei == j) <;> simp [h])]
  apply rowsWith_map_id
  intro r hr
  have h2 := (rowsWith_mem_imei st r hr).2
  simp [h2, Ne.symm hne]

theorem rowsWith_upd_eq (st : List Row) (i : String) (f : Option DT) :
    rowsWith (st.map (fun r => if r.imei == i then { r with fecha := f, activo := true } else r)) i =
      (rowsWith st i).map (fun r => { r with fecha := f, activo := true }) := by
  rw [rowsWith_map _ (fun r => by cases h : (r.imei == i) <;> simp [h])]
  apply List.map_congr_left
  intro r hr
  have h2 := (rowsWith_mem_imei st r hr).2
  simp [h2]

theorem rowsWith_deact_ne (st : List Row) (i j : String) (hne : j ≠ i) :
    rowsWith (st.map (fun r => if r.imei == j then { r with activo := false } else r)) i =
      rowsWith st i := by
  rw [rowsWith_map _ (fun r => by cases h : (r.imei == j) <;> simp [h])]
  apply rowsWith_map_id
  intro r hr
  have h2 := (rowsWith_mem_imei st r hr).2
  simp [h2, Ne.symm hne]

theorem rowsWith_deact_eq (st : List Row) (i : String) :
    rowsWith (st.map (fun r => if r.imei == i then { r with activo := false } else r)) i =
      (rowsWith st i).map (fun r => { r with activo := false }) := by
  rw [rowsWith_map _ (fun r => by cases h : (r.imei == i) <;> simp [h])]
  apply List.map_congr_left
  intro r hr
  have h2 := (rowsWith_mem_imei st r hr).2
  simp [h2]

theorem phase1_rowsWith_isN_false (fl : Faults) (isN : String → Bool)
    (l : List ExcelItem) (o : List Row × SyncResult) (i : String)
    (hN : isN i = false) :
    rowsWith (phase1 fl isN l o).1 i = rowsWith o.1 i := by
  refine phase1_ind_mem fl isN (fun o' => rowsWith o'.1 i = rowsWith o.1 i) l o ?_ rfl
  intro it _ o' h
  rcases p1Step_store fl isN it o' with he | ⟨j, hk, hNj, hhas, he⟩
  · rw [he, h]
  · rw [he, rowsWith_append_single]
    have hj : j ≠ i := fun hji => by rw [hji, hN] at hNj; exact Bool.noConfusion hNj
    simp [hj, h]

theorem phase1_rowsWith_nonempty (fl : Faults) (isN : String → Bool)
    (l : List ExcelItem) (o : List Row × SyncResult) (i : String)
    (hne : rowsWith o.1 i ≠ []) :
    rowsWith (phase1 fl isN l o).1 i = rowsWith o.1 i := by
  refine phase1_ind_mem fl isN (fun o' => rowsWith o'.1 i = rowsWith o.1 i) l o ?_ rfl
  intro it _ o' h
  rcases p1Step_store fl isN it o' with he | ⟨j, hk, hNj, hhas, he⟩
  · rw [he, h]
  · rw [he, rowsWith_append_single]
    have hj : j ≠ i := by
      intro hji
      subst hji
      rw [storeHas_false_iff] at hhas
      rw [h] at hhas
      exact hne hhas
    simp [hj, h]

theorem phase1_rowsWith_no_key (fl : Faults) (isN : String → Bool)
    (l : List ExcelItem) (o : List Row × SyncResult) (i : String)
    (hnk : ∀ it ∈ l, it.key ≠ some i) :
    rowsWith (phase1 fl isN l o).1 i = rowsWith o.1 i := by
  refine phase1_ind_mem fl isN (fun o' => rowsWith o'.1 i = rowsWith o.1 i) l o ?_ rfl
  intro it hit o' h
  rcases p1Step_store fl isN it o' with he | ⟨j, hk, hNj, hhas, he⟩
  · rw [he, h]
  · rw [he, rowsWith_append_single]
    have hj : j ≠ i := fun hji => hnk it hit (hji ▸ hk)
    simp [hj, h]

theorem phase2_rowsWith_lk_none (fl : Faults) (lk : String → Option (Option DT × Bool))
    (l : List ExcelItem) (o : List Row × SyncResult) (i : String)
    (hlk : lk i = none) :
    rowsWith (phase2 fl lk l o).1 i = rowsWith o.1 i := by
  refine phase2_ind_mem fl lk (fun o' => rowsWith o'.1 i = rowsWith o.1 i) l o ?_ rfl
  intro it _ o' h
  rcases p2Step_store fl lk it o' with he | ⟨j, fb, ab, hk, hlkj, he⟩
  · rw [he, h]
  · have hj : j ≠ i := fun hji => by rw [hji, hlk] at hlkj; exact Option.noConfusion hlkj
    rw [he, rowsWith_upd_ne _ _ _ _ hj, h]

theorem phase2_rowsWith_no_key (fl : Faults) (lk : String → Option (Option DT × Bool))
    (l : List ExcelItem) (o : List Row × SyncResult) (i : String)
    (hnk : ∀ it ∈ l, it.key ≠ some i) :
    rowsWith (phase2 fl lk l o).1 i = rowsWith o.1 i := by
  refine phase2_ind_mem fl lk (fun o' => rowsWith o'.1 i = rowsWith o.1 i) l o ?_ rfl
  intro it hit o' h
  rcases p2Step_store fl lk it o' with he | ⟨j, fb, ab, hk, hlkj, he⟩
  · rw [he, h]
  · have hj : j ≠ i := fun hji => hnk it hit (hji ▸ hk)
    rw [he, rowsWith_upd_ne _ _ _ _ hj, h]

theorem phase3_rowsWith_not_mem (fl : Faults) (lk : String → Option (Option DT × Bool))
    (obs : List String) (o : List Row × SyncResult) (i : String)
    (hni : ¬ i ∈ obs) :
    rowsWith (phase3 fl lk obs o).1 i = rowsWith o.1 i := by
  refine phase3_ind_mem fl lk (fun o' => rowsWith o'.1 i = rowsWith o.1 i) obs o ?_ rfl
  intro j hj o' h
  have hne : j ≠ i := fun hji => hni (hji ▸ hj)
  rcases p3Step_store fl lk j o' with he | he
  · rw [he, h]
  · rw [he, rowsWith_deact_ne _ _ _ hne, h]

theorem row_eta_deact (r : Row) (h : r.activo = false) :
    ({ r with activo := false } : Row) = r := by
  cases r
  simp_all

theorem phase1_skip (fl : Faults) (isN : String → Bool) :
    ∀ (l : List ExcelItem) (o : List Row × SyncResult),
      (∀ it ∈ l, ∀ j, it.key = some j → isN j = false) →
      phase1 fl isN l o = o := by
  intro l
  induction l with
  | nil => intro o _; rfl
  | cons it l ih =>
    intro o h
    rw [phase1]
    have hstep : p1Step fl isN it o = o := by
      cases hk : it.key with
      | none => exact p1Step_key_none _ _ _ _ hk
      | some j => exact p1Step_not_new _ _ _ _ hk (h it (List.mem_cons_self _ _) j hk)
    rw [hstep]
    exact ih o (fun x hx => h x (List.mem_cons_of_mem _ hx))

theorem phase2_all_unchanged (fl : Faults) (lk : String → Option (Option DT × Bool)) :
    ∀ (l : List ExcelItem) (o : List Row × SyncResult),
      (∀ it ∈ l, ∀ j, it.key = some j →
        ∃ fb, lk j = some (fb, true) ∧ fechaCambio it.fecha fb = false) →
      phase2 fl lk l o =
        (o.1, { o.2 with sinCambios :=
          o.2.sinCambios ++ l.filterMap (fun it => it.key.map (fun j => (j, it.fecha))) }) := by
  intro l
  induction l with
  | nil => intro o _; simp [phase2]
  | cons it l ih =>
    intro o h
    rw [phase2]
    cases hk : it.key with
    | none =>
      rw [p2Step_key_none _ _ _ _ hk,
        ih o (fun x hx => h x (List.mem_cons_of_mem _ hx))]
      simp [List.filterMap_cons, hk]
    | some j =>
      obtain ⟨fb, hlk, hfc⟩ := h it (List.mem_cons_self _ _) j hk
      have hc : (fechaCambio it.fecha fb || !true) = false := by simp [hfc]
      rw [p2Step_unchanged fl lk it o hk hlk hc,
        ih _ (fun x hx => h x (List.mem_cons_of_mem _ hx))]
      simp [List.filterMap_cons, hk]

theorem phase3_all_inactive (fl : Faults) (lk : String → Option (Option DT × Bool)) :
    ∀ (obs : List String) (o : List Row × SyncResult),
      (∀ i ∈ obs, fl.failDeact i = false) →
      (∀ i ∈ obs, ∀ r ∈ o.1, r.imei = i → r.activo = false) →
      phase3 fl lk obs o =
        (o.1, { o.2 with
          desactivados := o.2.desactivados + obs.length,
          desactivadosList :=
            o.2.desactivadosList ++ obs.map (fun i => (i, lkFecha lk i)),
          writeOps := o.2.writeOps ++ obs.map WriteOp.deact }) := by
  intro obs
  induction obs with
  | nil => intro o _ _; simp [phase3]
  | cons i obs ih =>
    intro o hfl hrows
    rw [phase3, p3Step_ok fl lk i o (hfl i (List.mem_cons_self _ _))]
    have hmap : o.1.map (fun r => if r.imei == i then { r with activo := false } else r) = o.1 := by
      have : ∀ r ∈ o.1,
          (if r.imei == i then ({ r with activo := false } : Row) else r) = r := by
        intro r hr
        cases hri : (r.imei == i) with
        | false => simp
        | true =>
          simp only [if_true]
          exact row_eta_deact r (hrows i (List.mem_cons_self _ _) r hr (beq_iff_eq.mp hri))
      rw [List.map_congr_left this]
      exact List.map_id' _
    rw [hmap]
    have heq := ih (o.1, { o.2 with
        desactivados := o.2.desactivados + 1,
        desactivadosList := o.2.desactivadosList ++ [(i, lkFecha lk i)],
        writeOps := o.2.writeOps ++ [WriteOp.deact i] })
      (fun x hx => hfl x (List.mem_cons_of_mem _ hx))
      (fun x hx r hr hri => hrows x (List.mem_cons_of_mem _ hx) r hr hri)
    rw [heq]
    simp only [List.length_cons, List.map_cons]
    have hd : o.2.desactivados + 1 + obs.length = o.2.desactivados + (obs.length + 1) := by omega
    simp [hd]

theorem fechaCambio_self (f : Option DT) : fechaCambio f f = false := by
  cases f with
  | none => rfl
  | some a => simp [fechaCambio]

theorem fFirst_cons_key (it : ExcelItem) (l : List ExcelItem) (i : String)
    (h : it.key = some i) : fFirst (it :: l) i = it.fecha := by
  simp [fFirst, List.find?_cons, h]

theorem fFirst_cons_not (it : ExcelItem) (l : List ExcelItem) (i : String)
    (h : ¬ it.key = some i) : fFirst (it :: l) i = fFirst l i := by
  have hb : (it.key == some i) = false := by simpa using h
  simp [fFirst, List.find?_cons, hb]

theorem count_zero_no_key (l : List ExcelItem) (i : String)
    (h : (l.filterMap ExcelItem.key).count i = 0) :
    ∀ x ∈ l, ¬ x.key = some i := by
  intro x hx hk
  have hmem : i ∈ l.filterMap ExcelItem.key :=
    List.mem_filterMap.mpr ⟨x, hx, hk⟩
  rw [List.count_eq_zero] at h
  exact h hmem

theorem phase1_insert_new (fl : Faults) (isN : String → Bool) :
    ∀ (l : List ExcelItem) (o : List Row × SyncResult) (i : String),
      isN i = true → rowsWith o.1 i = [] → fl.failIns i = false →
      (∃ it ∈ l, it.key = some i) →
      rowsWith (phase1 fl isN l o).1 i = [⟨i, fFirst l i, true⟩] := by
  intro l
  induction l with
  | nil =>
    rintro o i _ _ _ ⟨it, hit, _⟩
    simp at hit
  | cons it l ih =>
    intro o i hN hemp hfl hex
    rw [phase1]
    by_cases hki : it.key = some i
    · have hhas : storeHas o.1 i = false := (storeHas_false_iff _ _).mpr hemp
      rw [p1Step_ins_ok fl isN it o hki hN hhas hfl]
      have hrows : rowsWith (o.1 ++ [⟨i, it.fecha, true⟩]) i = [⟨i, it.fecha, true⟩] := by
        rw [rowsWith_append_single, hemp]
        simp
      rw [phase1_rowsWith_nonempty fl isN l _ i (by rw [hrows]; simp),
        hrows, fFirst_cons_key it l i hki]
    · have hstep : rowsWith (p1Step fl isN it o).1 i = rowsWith o.1 i := by
        rcases p1Step_store fl isN it o with he | ⟨j, hk, hNj, hhas, he⟩
        · rw [he]
        · have hj : j ≠ i := fun hji => hki (hji ▸ hk)
          rw [he, rowsWith_append_single]
          simp [hj]
      obtain ⟨x, hx, hxk⟩ := hex
      rcases List.mem_cons.mp hx with rfl | hx2
      · exact absurd hxk hki
      · rw [fFirst_cons_not it l i hki]
        exact ih (p1Step fl isN it o) i hN (hstep.trans hemp) hfl ⟨x, hx2, hxk⟩

theorem phase2_single_active (fl : Faults) (lk : String → Option (Option DT × Bool))
    (l : List ExcelItem) (o : List Row × SyncResult) (i : String) (r : Row)
    (hr : rowsWith o.1 i = [r]) (hact : r.activo = true) :
    ∃ r', rowsWith (phase2 fl lk l o).1 i = [r'] ∧ r'.activo = true := by
  refine phase2_ind_mem fl lk
    (fun o' => ∃ r', rowsWith o'.1 i = [r'] ∧ r'.activo = true) l o ?_ ⟨r, hr, hact⟩
  rintro it _ o' ⟨r', hr', ha'⟩
  rcases p2Step_store fl lk it o' with he | ⟨j, fb, ab, hk, hlkj, he⟩
  · exact ⟨r', by rw [he, hr'], ha'⟩
  · by_cases hij : j = i
    · subst hij
      refine ⟨{ r' with fecha := it.fecha, activo := true }, ?_, rfl⟩
      rw [he, rowsWith_upd_eq, hr']
      rfl
    · exact ⟨r', by rw [he, rowsWith_upd_ne _ _ _ _ hij, hr'], ha'⟩

theorem phase2_active (fl : Faults) (lk : String → Option (Option DT × Bool)) :
    ∀ (l : List ExcelItem) (o : List Row × SyncResult) (i : String) (r : Row)
      (fb : Option DT) (ab : Bool),
      fl.failUpd i = false → lk i = some (fb, ab) →
      rowsWith o.1 i = [r] → r.fecha = fb → r.activo = ab →
      (ab = false → ∃ it ∈ l, it.key = some i) →
      ∃ r', rowsWith (phase2 fl lk l o).1 i = [r'] ∧ r'.activo = true := by
  intro l
  induction l with
  | nil =>
    intro o i r fb ab hfl hlk hr hrf hra hab
    cases hab' : ab with
    | false =>
      obtain ⟨it, hit, _⟩ := hab hab'
      simp at hit
    | true =>
      exact ⟨r, hr, by rw [hra, hab']⟩
  | cons it l ih =>
    intro o i r fb ab hfl hlk hr hrf hra hab
    rw [phase2]
    by_cases hki : it.key = some i
    · cases hc : (fechaCambio it.fecha fb || !ab) with
      | true =>
        rw [p2Step_upd_ok fl lk it o hki hlk hc hfl]
        have hrows : rowsWith
            (o.1.map (fun r => if r.imei == i then { r with fecha := it.fecha, activo := true } else r)) i =
            [{ r with fecha := it.fecha, activo := true }] := by
          rw [rowsWith_upd_eq, hr]
          rfl
        exact phase2_single_active fl lk l _ i _ hrows rfl
      | false =>
        have hab' : ab = true := by
          cases hA : ab
          · rw [hA] at hc; simp at hc
          · rfl
        rw [p2Step_unchanged fl lk it o hki hlk hc]
        exact phase2_single_active fl lk l _ i r hr (by rw [hra, hab'])
    · have hstep : rowsWith (p2Step fl lk it o).1 i = rowsWith o.1 i := by
        rcases p2Step_store fl lk it o with he | ⟨j, fb', ab', hk, hlkj, he⟩
        · rw [he]
        · have hj : j ≠ i := fun hji => hki (hji ▸ hk)
          rw [he, rowsWith_upd_ne _ _ _ _ hj]
      refine ih (p2Step fl lk it o) i r fb ab hfl hlk (hstep.trans hr) hrf hra ?_
      intro hA
      obtain ⟨x, hx, hxk⟩ := hab hA
      rcases List.mem_cons.mp hx with rfl | hx2
      · exact absurd hxk hki
      · exact ⟨x, hx2, hxk⟩

theorem phase2_good (fl : Faults) (lk : String → Option (Option DT × Bool)) :
    ∀ (l : List ExcelItem) (o : List Row × SyncResult) (i : String) (r : Row)
      (fb : Option DT) (ab : Bool),
      fl.failUpd i = false → lk i = some (fb, ab) →
      rowsWith o.1 i = [r] → r.fecha = fb → r.activo = ab →
      (l.filterMap ExcelItem.key).count i ≤ 1 →
      ∃ r', rowsWith (phase2 fl lk l o).1 i = [r'] ∧
        ∀ it ∈ l, it.key = some i →
          (r'.activo = true ∧ fechaCambio it.fecha r'.fecha = false) := by
  intro l
  induction l with
  | nil =>
    intro o i r fb ab hfl hlk hr hrf hra _
    exact ⟨r, hr, by simp⟩
  | cons it l ih =>
    intro o i r fb ab hfl hlk hr hrf hra hcnt
    rw [phase2]
    by_cases hki : it.key = some i
    · have hcnt0 : (l.filterMap ExcelItem.key).count i = 0 := by
        rw [show (it :: l).filterMap ExcelItem.key = i :: l.filterMap ExcelItem.key from by
          simp [List.filterMap_cons, hki], List.count_cons_self] at hcnt
        omega
      have hnkey : ∀ x ∈ l, ¬ x.key = some i := count_zero_no_key l i hcnt0
      cases hc : (fechaCambio it.fecha fb || !ab) with
      | true =>
        rw [p2Step_upd_ok fl lk it o hki hlk hc hfl]
        have hrows : rowsWith
            (o.1.map (fun r => if r.imei == i then { r with fecha := it.fecha, activo := true } else r)) i =
            [{ r with fecha := it.fecha, activo := true }] := by
          rw [rowsWith_upd_eq, hr]
          rfl
        refine ⟨{ r with fecha := it.fecha, activo := true }, ?_, ?_⟩
        · rw [phase2_rowsWith_no_key fl lk l _ i (fun x hx => hnkey x hx)]
          exact hrows
        · intro x hx hxk
          rcases List.mem_cons.mp hx with rfl | hx2
          · exact ⟨rfl, fechaCambio_self _⟩
          · exact absurd hxk (hnkey x hx2)
      | false =>
        have hab' : ab = true := by
          cases hA : ab
          · rw [hA] at hc; simp at hc
          · rfl
        have hfc : fechaCambio it.fecha fb = false := by
          cases hF : fechaCambio it.fecha fb
          · rfl
          · rw [hF] at hc; simp at hc
        rw [p2Step_unchanged fl lk it o hki hlk hc]
        refine ⟨r, ?_, ?_⟩
        · rw [phase2_rowsWith_no_key fl lk l _ i (fun x hx => hnkey x hx)]
          exact hr
        · intro x hx hxk
          rcases List.mem_cons.mp hx with rfl | hx2
          · exact ⟨by rw [hra, hab'], by rw [hrf]; exact hfc⟩
          · exact absurd hxk (hnkey x hx2)
    · have hstep : rowsWith (p2Step fl lk it o).1 i = rowsWith o.1 i := by
        rcases p2Step_store fl lk it o with he | ⟨j, fb', ab', hk, hlkj, he⟩
        · rw [he]
        · have hj : j ≠ i := fun hji => hki (hji ▸ hk)
          rw [he, rowsWith_upd_ne _ _ _ _ hj]
      have hcnt2 : (l.filterMap ExcelItem.key).count i ≤ 1 := by
        cases hk : it.key with
        | none =>
          rw [show (it :: l).filterMap ExcelItem.key = l.filterMap ExcelItem.key from by
            simp [List.filterMap_cons, hk]] at hcnt
          exact hcnt
        | some j =>
          rw [show (it :: l).filterMap ExcelItem.key = j :: l.filterMap ExcelItem.key from by
            simp [List.filterMap_cons, hk]] at hcnt
          have hj : i ≠ j := fun hij => hki (by rw [hij]; exact hk)
          rw [List.count_cons_of_ne hj] at hcnt
          exact hcnt
      obtain ⟨r', hr', hall⟩ := ih (p2Step fl lk it o) i r fb ab hfl hlk
        (hstep.trans hr) hrf hra hcnt2
      refine ⟨r', hr', ?_⟩
      intro x hx hxk
      rcases List.mem_cons.mp hx with rfl | hx2
      · exact absurd hxk hki
      · exact hall x hx2 hxk

theorem phase3_deact (fl : Faults) (lk : String → Option (Option DT × Bool)) :
    ∀ (obs : List String) (o : List Row × SyncResult) (i : String),
      i ∈ obs → obs.Nodup → fl.failDeact i = false →
      rowsWith (phase3 fl lk obs o).1 i =
        (rowsWith o.1 i).map (fun r => { r with activo := false }) := by
  intro obs
  induction obs with
  | nil => intro o i hi; simp at hi
  | cons j obs ih =>
    intro o i hi hnd hfl
    rw [phase3]
    by_cases hij : j = i
    · subst hij
      rw [p3Step_ok fl lk j o hfl]
      have hni : ¬ j ∈ obs := (List.nodup_cons.mp hnd).1
      rw [phase3_rowsWith_not_mem fl lk obs _ j hni]
      exact rowsWith_deact_eq o.1 j
    · have hstep : rowsWith (p3Step fl lk j o).1 i = rowsWith o.1 i := by
        rcases p3Step_store fl lk j o with he | he
        · rw [he]
        · rw [he, rowsWith_deact_ne _ _ _ hij]
      have hi2 : i ∈ obs := by
        rcases List.mem_cons.mp hi with rfl | h2
        · exact absurd rfl hij
        · exact h2
      rw [ih (p3Step fl lk j o) i hi2 (List.nodup_cons.mp hnd).2 hfl, hstep]

theorem map_imei_map (g : Row → Row) (hg : ∀ r, (g r).imei = r.imei) (st : List Row) :
    (st.map g).map Row.imei = st.map Row.imei := by
  rw [List.map_map]
  exact List.map_congr_left (fun r _ => hg r)

theorem phase1_store_prefix (fl : Faults) (isN : String → Bool)
    (l : List ExcelItem) (o : List Row × SyncResult) :
    ∃ ext, (phase1 fl isN l o).1 = o.1 ++ ext := by
  refine phase1_ind_mem fl isN (fun o' => ∃ ext, o'.1 = o.1 ++ ext) l o ?_ ⟨[], by simp⟩
  rintro it _ o' ⟨ext, he⟩
  rcases p1Step_store fl isN it o' with hs | ⟨j, _, _, _, hs⟩
  · exact ⟨ext, hs ▸ he⟩
  · exact ⟨ext ++ [⟨j, it.fecha, true⟩], by rw [hs, he, List.append_assoc]⟩

theorem phase2_map_imei (fl : Faults) (lk : String → Option (Option DT × Bool))
    (l : List ExcelItem) (o : List Row × SyncResult) :
    (phase2 fl lk l o).1.map Row.imei = o.1.map Row.imei := by
  refine phase2_ind_mem fl lk (fun o' => o'.1.map Row.imei = o.1.map Row.imei) l o ?_ rfl
  intro it _ o' h
  rcases p2Step_store fl lk it o' with hs | ⟨j, fb, ab, hk, hlkj, hs⟩
  · rw [hs, h]
  · rw [hs, map_imei_map _ (fun r => by cases hb : (r.imei == j) <;> simp [hb]), h]

theorem phase3_map_imei (fl : Faults) (lk : String → Option (Option DT × Bool))
    (obs : List String) (o : List Row × SyncResult) :
    (phase3 fl lk obs o).1.map Row.imei = o.1.map Row.imei := by
  refine phase3_ind_mem fl lk (fun o' => o'.1.map Row.imei = o.1.map Row.imei) obs o ?_ rfl
  intro j _ o' h
  rcases p3Step_store fl lk j o' with hs | hs
  · rw [hs, h]
  · rw [hs, map_imei_map _ (fun r => by cases hb : (r.imei == j) <;> simp [hb]), h]

theorem p1Step_errors (fl : Faults) (isN : String → Bool) (it : ExcelItem)
    (o : List Row × SyncResult) :
    (p1Step fl isN it o).2.errors = o.2.errors ∨
    ∃ m, (p1Step fl isN it o).2.errors = o.2.errors ++ [m] := by
  cases hk : it.key with
  | none => left; rw [p1Step_key_none _ _ _ _ hk]
  | some j =>
    cases hN : isN j with
    | false => left; rw [p1Step_not_new _ _ _ _ hk hN]
    | true =>
      cases hhas : storeHas o.1 j with
      | true => right; exact ⟨_, by rw [p1Step_ins_dup _ _ _ _ hk hN hhas]⟩
      | false =>
        cases hfl : fl.failIns j with
        | true => right; exact ⟨_, by rw [p1Step_ins_fail _ _ _ _ hk hN hhas hfl]⟩
        | false => left; rw [p1Step_ins_ok _ _ _ _ hk hN hhas hfl]

theorem p2Step_errors (fl : Faults) (lk : String → Option (Option DT × Bool))
    (it : ExcelItem) (o : List Row × SyncResult) :
    (p2Step fl lk it o).2.errors = o.2.errors ∨
    ∃ m, (p2Step fl lk it o).2.errors = o.2.errors ++ [m] := by
  cases hk : it.key with
  | none => left; rw [p2Step_key_none _ _ _ _ hk]
  | some j =>
    cases hlk : lk j with
    | none => left; rw [p2Step_lk_none _ _ _ _ hk hlk]
    | some v =>
      obtain ⟨fb, ab⟩ := v
      cases hc : (fechaCambio it.fecha fb || !ab) with
      | false => left; rw [p2Step_unchanged _ _ _ _ hk hlk hc]
      | true =>
        cases hfl : fl.failUpd j with
        | true => right; exact ⟨_, by rw [p2Step_upd_fail _ _ _ _ hk hlk hc hfl]⟩
        | false => left; rw [p2Step_upd_ok _ _ _ _ hk hlk hc hfl]

theorem p3Step_errors (fl : Faults) (lk : String → Option (Option DT × Bool))
    (i : String) (o : List Row × SyncResult) :
    (p3Step fl lk i o).2.errors = o.2.errors ∨
    ∃ m, (p3Step fl lk i o).2.errors = o.2.errors ++ [m] := by
  cases hfl : fl.failDeact i with
  | true => right; exact ⟨_, by rw [p3Step_fail _ _ _ _ hfl]⟩
  | false => left; rw [p3Step_ok _ _ _ _ hfl]

theorem phase1_errors_mono (fl : Faults) (isN : String → Bool)
    (l : List ExcelItem) (o : List Row × SyncResult) (e : String)
    (h : e ∈ o.2.errors) : e ∈ (phase1 fl isN l o).2.errors := by
  refine phase1_ind_mem fl isN (fun o' => e ∈ o'.2.errors) l o ?_ h
  intro it _ o' h'
  rcases p1Step_errors fl isN it o' with he | ⟨m, he⟩
  · rw [he]; exact h'
  · rw [he]; exact List.mem_append_left _ h'

theorem phase2_errors_mono (fl : Faults) (lk : String → Option (Option DT × Bool))
    (l : List ExcelItem) (o : List Row × SyncResult) (e : String)
    (h : e ∈ o.2.errors) : e ∈ (phase2 fl lk l o).2.errors := by
  refine phase2_ind_mem fl lk (fun o' => e ∈ o'.2.errors) l o ?_ h
  intro it _ o' h'
  rcases p2Step_errors fl lk it o' with he | ⟨m, he⟩
  · rw [he]; exact h'
  · rw [he]; exact List.mem_append_left _ h'

theorem phase3_errors_mono (fl : Faults) (lk : String → Option (Option DT × Bool))
    (obs : List String) (o : List Row × SyncResult) (e : String)
    (h : e ∈ o.2.errors) : e ∈ (phase3 fl lk obs o).2.errors := by
  refine phase3_ind_mem fl lk (fun o' => e ∈ o'.2.errors) obs o ?_ h
  intro j _ o' h'
  rcases p3Step_errors fl lk j o' with he | ⟨m, he⟩
  · rw [he]; exact h'
  · rw [he]; exact List.mem_append_left _ h'

theorem phase1_error_recorded (fl : Faults) (isN : String → Bool) :
    ∀ (l : List ExcelItem) (o : List Row × SyncResult) (i : String),
      isN i = true → fl.failIns i = true → (∃ it ∈ l, it.key = some i) →
      ("Error al insertar IMEI: " ++ i) ∈ (phase1 fl isN l o).2.errors := by
  intro l
  induction l with
  | nil => rintro o i _ _ ⟨it, hit, _⟩; simp at hit
  | cons it l ih =>
    intro o i hN hfl hex
    rw [phase1]
    by_cases hki : it.key = some i
    · have hmem : ("Error al insertar IMEI: " ++ i) ∈ (p1Step fl isN it o).2.errors := by
        cases hhas : storeHas o.1 i with
        | true => rw [p1Step_ins_dup fl isN it o hki hN hhas]; simp
        | false => rw [p1Step_ins_fail fl isN it o hki hN hhas hfl]; simp
      exact phase1_errors_mono fl isN l _ _ hmem
    · obtain ⟨x, hx, hxk⟩ := hex
      rcases List.mem_cons.mp hx with rfl | hx2
      · exact absurd hxk hki
      · exact ih (p1Step fl isN it o) i hN hfl ⟨x, hx2, hxk⟩

theorem phase2_error_recorded (fl : Faults) (lk : String → Option (Option DT × Bool)) :
    ∀ (l : List ExcelItem) (o : List Row × SyncResult) (i : String)
      (fb : Option DT) (ab : Bool),
      lk i = some (fb, ab) → fl.failUpd i = true →
      (∃ it ∈ l, it.key = some i ∧ (fechaCambio it.fecha fb || !ab) = true) →
      ("Error al actualizar IMEI: " ++ i) ∈ (phase2 fl lk l o).2.errors := by
  intro l
  induction l with
  | nil => rintro o i fb ab _ _ ⟨it, hit, _⟩; simp at hit
  | cons it l ih =>
    intro o i fb ab hlk hfl hex
    rw [phase2]
    obtain ⟨x, hx, hxk, hxc⟩ := hex
    rcases List.mem_cons.mp hx with rfl | hx2
    · have hmem : ("Error al actualizar IMEI: " ++ i) ∈ (p2Step fl lk x o).2.errors := by
        rw [p2Step_upd_fail fl lk x o hxk hlk hxc hfl]
        simp
      exact phase2_errors_mono fl lk l _ _ hmem
    · exact ih (p2Step fl lk it o) i fb ab hlk hfl ⟨x, hx2, hxk, hxc⟩

theorem phase3_error_recorded (fl : Faults) (lk : String → Option (Option DT × Bool)) :
    ∀ (obs : List String) (o : List Row × SyncResult) (i : String),
      i ∈ obs → fl.failDeact i = true →
      ("Error al desactivar IMEI: " ++ i) ∈ (phase3 fl lk obs o).2.errors := by
  intro obs
  induction obs with
  | nil => intro o i hi; simp at hi
  | cons j obs ih =>
    intro o i hi hfl
    rw [phase3]
    rcases List.mem_cons.mp hi with rfl | hi2
    · have hmem : ("Error al desactivar IMEI: " ++ i) ∈ (p3Step fl lk i o).2.errors := by
        rw [p3Step_fail fl lk i o hfl]
        simp
      exact phase3_errors_mono fl lk obs _ _ hmem
    · exact ih (p3Step fl lk j o) i hi2 hfl

theorem storeHas_iff_mem_map (st : List Row) (i : String) :
    storeHas st i = true ↔ i ∈ st.map Row.imei := by
  simp only [storeHas, List.any_eq_true, List.mem_map, beq_iff_eq]

theorem mem_obsoletos_iff (store : List Row) (keys : List String) (i : String) :
    i ∈ obsoletosOf store keys ↔ i ∈ store.map Row.imei ∧ ¬ i ∈ keys := by
  simp only [obsoletosOf, List.mem_filter, List.mem_dedup, Bool.not_eq_true']
  constructor
  · rintro ⟨h1, h2⟩
    refine ⟨h1, fun hk => ?_⟩
    rw [show keys.contains i = true from by simpa using hk] at h2
    exact Bool.noConfusion h2
  · rintro ⟨h1, h2⟩
    refine ⟨h1, ?_⟩
    cases hc : keys.contains i with
    | false => rfl
    | true => exact absurd (by simpa using hc) h2

theorem obsoletos_nodup (store : List Row) (keys : List String) :
    (obsoletosOf store keys).Nodup :=
  List.Nodup.filter _ (List.nodup_dedup _)

theorem mem_keys_iff (batch : List ExcelItem) (i : String) :
    i ∈ excelImeis batch ↔ ∃ it ∈ batch, it.key = some i := by
  simp only [excelImeis, List.mem_filterMap]

theorem phase1_counts (fl : Faults) (isN : String → Bool) :
    ∀ (l : List ExcelItem) (o : List Row × SyncResult),
      (phase1 fl isN l o).2.actualizados = o.2.actualizados ∧
      (phase1 fl isN l o).2.sinCambios = o.2.sinCambios ∧
      (phase1 fl isN l o).2.desactivadosList = o.2.desactivadosList ∧
      (phase1 fl isN l o).2.total = o.2.total ∧
      (phase1 fl isN l o).2.nuevos ≤ o.2.nuevos +
        l.countP (fun it => match it.key with | some j => isN j | none => false) := by
  intro l
  induction l with
  | nil =>
    intro o
    exact ⟨rfl, rfl, rfl, rfl, by rw [show phase1 fl isN [] o = o from rfl]; omega⟩
  | cons it l ih =>
    intro o
    rw [phase1]
    obtain ⟨h1, h2, h3, h4, h5⟩ := ih (p1Step fl isN it o)
    have hcnt : (it :: l).countP (fun it => match it.key with | some j => isN j | none => false) =
        l.countP (fun it => match it.key with | some j => isN j | none => false) +
        (if (match it.key with | some j => isN j | none => false) then 1 else 0) := by
      rw [List.countP_cons]
    have hstep : (p1Step fl isN it o).2.actualizados = o.2.actualizados ∧
        (p1Step fl isN it o).2.sinCambios = o.2.sinCambios ∧
        (p1Step fl isN it o).2.desactivadosList = o.2.desactivadosList ∧
        (p1Step fl isN it o).2.total = o.2.total ∧
        (p1Step fl isN it o).2.nuevos ≤ o.2.nuevos +
          (if (match it.key with | some j => isN j | none => false) then 1 else 0) := by
      cases hk : it.key with
      | none => rw [p1Step_key_none _ _ _ _ hk]; simp [hk]
      | some j =>
        cases hN : isN j with
        | false => rw [p1Step_not_new _ _ _ _ hk hN]; simp [hk, hN]
        | true =>
          cases hhas : storeHas o.1 j with
          | true => rw [p1Step_ins_dup _ _ _ _ hk hN hhas]; simp [hk, hN]
          | false =>
            cases hfl : fl.failIns j with
            | true => rw [p1Step_ins_fail _ _ _ _ hk hN hhas hfl]; simp [hk, hN]
            | false => rw [p1Step_ins_ok _ _ _ _ hk hN hhas hfl]; simp [hk, hN]
    refine ⟨h1.trans hstep.1, h2.trans hstep.2.1, h3.trans hstep.2.2.1,
      h4.trans hstep.2.2.2.1, ?_⟩
    rw [hcnt]
    have := hstep.2.2.2.2
    omega

theorem phase2_counts (fl : Faults) (lk : String → Option (Option DT × Bool)) :
    ∀ (l : List ExcelItem) (o : List Row × SyncResult),
      (phase2 fl lk l o).2.nuevos = o.2.nuevos ∧
      (phase2 fl lk l o).2.desactivadosList = o.2.desactivadosList ∧
      (phase2 fl lk l o).2.total = o.2.total ∧
      (phase2 fl lk l o).2.actualizados + (phase2 fl lk l o).2.sinCambios.length ≤
        o.2.actualizados + o.2.sinCambios.length +
        l.countP (fun it => match it.key with | some j => (lk j).isSome | none => false) := by
  intro l
  induction l with
  | nil =>
    intro o
    exact ⟨rfl, rfl, rfl, by rw [show phase2 fl lk [] o = o from rfl]; omega⟩
  | cons it l ih =>
    intro o
    rw [phase2]
    obtain ⟨h1, h2, h3, h4⟩ := ih (p2Step fl lk it o)
    have hstep : (p2Step fl lk it o).2.nuevos = o.2.nuevos ∧
        (p2Step fl lk it o).2.desactivadosList = o.2.desactivadosList ∧
        (p2Step fl lk it o).2.total = o.2.total ∧
        (p2Step fl lk it o).2.actualizados + (p2Step fl lk it o).2.sinCambios.length ≤
          o.2.actualizados + o.2.sinCambios.length +
          (if (match it.key with | some j => (lk j).isSome | none => false) then 1 else 0) := by
      cases hk : it.key with
      | none =>
        rw [p2Step_key_none _ _ _ _ hk]
        refine ⟨rfl, rfl, rfl, ?_⟩
        simp only [hk]
        omega
      | some j =>
        cases hlk : lk j with
        | none =>
          rw [p2Step_lk_none _ _ _ _ hk hlk]
          refine ⟨rfl, rfl, rfl, ?_⟩
          simp only [hk, hlk, Option.isSome_none]
          omega
        | some v =>
          obtain ⟨fb, ab⟩ := v
          cases hc : (fechaCambio it.fecha fb || !ab) with
          | false =>
            rw [p2Step_unchanged _ _ _ _ hk hlk hc]
            refine ⟨rfl, rfl, rfl, ?_⟩
            simp only [hk, hlk, Option.isSome_some, if_true,
              List.length_append, List.length_singleton]
            omega
          | true =>
            cases hfl : fl.failUpd j with
            | true =>
              rw [p2Step_upd_fail _ _ _ _ hk hlk hc hfl]
              refine ⟨rfl, rfl, rfl, ?_⟩
              simp only [hk, hlk, Option.isSome_some, if_true]
              omega
            | false =>
              rw [p2Step_upd_ok _ _ _ _ hk hlk hc hfl]
              refine ⟨rfl, rfl, rfl, ?_⟩
              simp only [hk, hlk, Option.isSome_some, if_true]
              omega
    refine ⟨h1.trans hstep.1, h2.trans hstep.2.1, h3.trans hstep.2.2.1, ?_⟩
    rw [List.countP_cons]
    have := hstep.2.2.2
    omega

theorem phase3_counts (fl : Faults) (lk : String → Option (Option DT × Bool)) :
    ∀ (obs : List String) (o : List Row × SyncResult),
      (phase3 fl lk obs o).2.nuevos = o.2.nuevos ∧
      (phase3 fl lk obs o).2.actualizados = o.2.actualizados ∧
      (phase3 fl lk obs o).2.sinCambios = o.2.sinCambios ∧
      (phase3 fl lk obs o).2.total = o.2.total ∧
      ∀ p ∈ (phase3 fl lk obs o).2.desactivadosList,
        p ∈ o.2.desactivadosList ∨ p.1 ∈ obs := by
  intro obs
  induction obs with
  | nil => intro o; exact ⟨rfl, rfl, rfl, rfl, fun p hp => Or.inl hp⟩
  | cons j obs ih =>
    intro o
    rw [phase3]
    obtain ⟨h1, h2, h3, h4, h5⟩ := ih (p3Step fl lk j o)
    have hstep : (p3Step fl lk j o).2.nuevos = o.2.nuevos ∧
        (p3Step fl lk j o).2.actualizados = o.2.actualizados ∧
        (p3Step fl lk j o).2.sinCambios = o.2.sinCambios ∧
        (p3Step fl lk j o).2.total = o.2.total ∧
        ∀ p ∈ (p3Step fl lk j o).2.desactivadosList,
          p ∈ o.2.desactivadosList ∨ p.1 = j := by
      cases hfl : fl.failDeact j with
      | true =>
        rw [p3Step_fail _ _ _ _ hfl]
        exact ⟨rfl, rfl, rfl, rfl, fun p hp => Or.inl hp⟩
      | false =>
        rw [p3Step_ok _ _ _ _ hfl]
        refine ⟨rfl, rfl, rfl, rfl, fun p hp => ?_⟩
        rcases List.mem_append.mp hp with h | h
        · exact Or.inl h
        · right
          simp only [List.mem_singleton] at h
          rw [h]
    refine ⟨h1.trans hstep.1, h2.trans hstep.2.1, h3.trans hstep.2.2.1,
      h4.trans hstep.2.2.2.1, ?_⟩
    intro p hp
    rcases h5 p hp with h | h
    · rcases hstep.2.2.2.2 p h with h' | h'
      · exact Or.inl h'
      · exact Or.inr (List.mem_cons.mpr (Or.inl h'))
    · exact Or.inr (List.mem_cons_of_mem _ h)

theorem syncImeis_false (fl : Faults) (store : List Row) (batch : List ExcelItem) :
    syncImeis fl false store batch =
      (store, { initResult batch.length with
        errors := ["No se pudo asegurar la existencia de la tabla"] }) := rfl

theorem syncImeis_true (fl : Faults) (store : List Row) (batch : List ExcelItem) :
    syncImeis fl true store batch =
      (let o3 := phase3 fl (fun i => dbLookup store i)
          (obsoletosOf store (excelImeis batch))
          (phase2 fl (fun i => dbLookup store i) batch
            (phase1 fl (fun i => !(storeHas store i)) batch
              (store, initResult batch.length)))
       (o3.1, { o3.2 with success := true })) := rfl

theorem countP_disjoint_le (l : List ExcelItem) (p q : ExcelItem → Bool)
    (h : ∀ x ∈ l, ¬(p x = true ∧ q x = true)) :
    l.countP p + l.countP q ≤ l.length := by
  induction l with
  | nil => simp
  | cons x l ih =>
    have hx := h x (List.mem_cons_self _ _)
    have hrec := ih (fun y hy => h y (List.mem_cons_of_mem _ hy))
    rw [List.countP_cons, List.countP_cons, List.length_cons]
    cases hp : p x <;> cases hq : q x <;> simp_all <;> omega

/-- C9: the outcome counts satisfy `nuevos + actualizados + |sin_cambios| ≤
total` with `total` the batch length, and every identifier in
`desactivados_list` was present in the store before the run and absent from
the batch (this holds for every fault pattern and also when the table
guarantee fails). -/
theorem C9_sync_outcome_invariant (fl : Faults) (ensureOk : Bool)
    (store : List Row) (batch : List ExcelItem) :
    (syncImeis fl ensureOk store batch).2.total = batch.length ∧
    (syncImeis fl ensureOk store batch).2.nuevos +
      (syncImeis fl ensureOk store batch).2.actualizados +
      (syncImeis fl ensureOk store batch).2.sinCambios.length ≤
      (syncImeis fl ensureOk store batch).2.total ∧
    ∀ p ∈ (syncImeis fl ensureOk store batch).2.desactivadosList,
      storeHas store p.1 = true ∧ ¬ p.1 ∈ excelImeis batch := by
  cases ensureOk with
  | false =>
    rw [syncImeis_false]
    refine ⟨rfl, ?_, ?_⟩
    · show (0 : Nat) + 0 + 0 ≤ batch.length
      omega
    · intro p hp
      simp [initResult] at hp
  | true =>
    set isN := (fun i => !(storeHas store i)) with hisN
    set lk := (fun i => dbLookup store i) with hlkdef
    set o1 := phase1 fl isN batch (store, initResult batch.length) with ho1
    set o2 := phase2 fl lk batch o1 with ho2
    set obs := obsoletosOf store (excelImeis batch) with hobs
    set o3 := phase3 fl lk obs o2 with ho3
    have hsync : syncImeis fl true store batch = (o3.1, { o3.2 with success := true }) := by
      rw [ho3, ho2, ho1, hobs, hlkdef, hisN]
      rfl
    rw [hsync]
    have hp1 := phase1_counts fl isN batch (store, initResult batch.length)
    rw [← ho1] at hp1
    have hp2 := phase2_counts fl lk batch o1
    rw [← ho2] at hp2
    have hp3 := phase3_counts fl lk obs o2
    rw [← ho3] at hp3
    have hinit : (store, initResult batch.length).2.actualizados = 0 ∧
        (store, initResult batch.length).2.sinCambios = ([] : List (String × Option DT)) ∧
        (store, initResult batch.length).2.desactivadosList = ([] : List (String × Option DT)) ∧
        (store, initResult batch.length).2.total = batch.length ∧
        (store, initResult batch.length).2.nuevos = 0 := ⟨rfl, rfl, rfl, rfl, rfl⟩
    refine ⟨?_, ?_, ?_⟩
    · show o3.2.total = batch.length
      rw [hp3.2.2.2.1, hp2.2.2.1, hp1.2.2.2.1, hinit.2.2.2.1]
    · show o3.2.nuevos + o3.2.actualizados + o3.2.sinCambios.length ≤ o3.2.total
      have hT : o3.2.total = batch.length := by
        rw [hp3.2.2.2.1, hp2.2.2.1, hp1.2.2.2.1, hinit.2.2.2.1]
      have hN3 : o3.2.nuevos = o2.2.nuevos := hp3.1
      have hN2 : o2.2.nuevos = o1.2.nuevos := hp2.1
      have hN1 : o1.2.nuevos ≤ 0 +
          batch.countP (fun it => match it.key with | some j => isN j | none => false) := by
        have := hp1.2.2.2.2
        rw [hinit.2.2.2.2] at this
        exact this
      have hA3 : o3.2.actualizados = o2.2.actualizados := hp3.2.1
      have hS3 : o3.2.sinCambios = o2.2.sinCambios := hp3.2.2.1
      have hAS2 : o2.2.actualizados + o2.2.sinCambios.length ≤ 0 + 0 +
          batch.countP (fun it => match it.key with | some j => (lk j).isSome | none => false) := by
        have := hp2.2.2.2
        rw [hp1.1, hp1.2.1, hinit.1, hinit.2.1] at this
        simpa using this
      have hdisj : batch.countP (fun it => match it.key with | some j => isN j | none => false) +
          batch.countP (fun it => match it.key with | some j => (lk j).isSome | none => false) ≤
          batch.length := by
        apply countP_disjoint_le
        intro x _ hpq
        obtain ⟨hA, hB⟩ := hpq
        cases hk : x.key with
        | none => rw [hk] at hA; exact Bool.noConfusion hA
        | some j =>
          rw [hk] at hA hB
          simp only at hA hB
          rw [hisN] at hA
          simp only [Bool.not_eq_true'] at hA
          have hnone : dbLookup store j = none :=
            (dbLookup_none_iff store j).mpr ((storeHas_false_iff store j).mp hA)
          have hB' : (dbLookup store j).isSome = true := hB
          rw [hnone] at hB'
          exact Bool.noConfusion hB'
      rw [hT, hN3, hN2, hA3, hS3]
      omega
    · show ∀ p ∈ o3.2.desactivadosList,
        storeHas store p.1 = true ∧ ¬ p.1 ∈ excelImeis batch
      intro p hp
      rcases hp3.2.2.2.2 p hp with hmem | hmem
      · rw [hp2.2.1, hp1.2.2.1, hinit.2.2.1] at hmem
        simp at hmem
      · rw [hobs] at hmem
        obtain ⟨h1, h2⟩ := (mem_obsoletos_iff store (excelImeis batch) p.1).mp hmem
        exact ⟨(storeHas_iff_mem_map store p.1).mpr h1, h2⟩

theorem C9_sync_outcome_invariant_witness :
    ("C", (none : Option DT)) ∈ (syncImeis noFaults true storeABC batchAB).2.desactivadosList ∧
    storeHas storeABC "C" = true ∧ ¬ "C" ∈ excelImeis batchAB ∧
    (syncImeis noFaults true storeABC batchAB).2.total = batchAB.length :=
  ⟨by decide,
   ((C9_sync_outcome_invariant noFaults true storeABC batchAB).2.2
     ("C", none) (by decide)).1,
   ((C9_sync_outcome_invariant noFaults true storeABC batchAB).2.2
     ("C", none) (by decide)).2,
   (C9_sync_outcome_invariant noFaults true storeABC batchAB).1⟩

/-- C4: when the table/schema guarantee fails, `sync_imeis` aborts with
`success = false`, the explanatory error, no writes and an untouched store;
when it holds, the run always ends with `success = true` whatever row
failures occur, each failed insert / update / deactivation is recorded
per-identifier in `errors`, and processing continues past failures (a new
identifier whose own insert does not fail still reaches the store). -/
theorem C4_failure_semantics (fl : Faults) (store : List Row)
    (batch : List ExcelItem) :
    ((syncImeis fl false store batch).2.success = false ∧
     (syncImeis fl false store batch).2.errors =
       ["No se pudo asegurar la existencia de la tabla"] ∧
     (syncImeis fl false store batch).2.writeOps = [] ∧
     (syncImeis fl false store batch).1 = store) ∧
    (syncImeis fl true store batch).2.success = true ∧
    (∀ i, storeHas store i = false → fl.failIns i = true →
      (∃ it ∈ batch, it.key = some i) →
      ("Error al insertar IMEI: " ++ i) ∈ (syncImeis fl true store batch).2.errors) ∧
    (∀ i fb ab, dbLookup store i = some (fb, ab) → fl.failUpd i = true →
      (∃ it ∈ batch, it.key = some i ∧ (fechaCambio it.fecha fb || !ab) = true) →
      ("Error al actualizar IMEI: " ++ i) ∈ (syncImeis fl true store batch).2.errors) ∧
    (∀ i, storeHas store i = true → ¬ i ∈ excelImeis batch → fl.failDeact i = true →
      ("Error al desactivar IMEI: " ++ i) ∈ (syncImeis fl true store batch).2.errors) ∧
    (∀ i, storeHas store i = false → fl.failIns i = false →
      (∃ it ∈ batch, it.key = some i) →
      storeHas (syncImeis fl true store batch).1 i = true) := by
  set isN := (fun i => !(storeHas store i)) with hisN
  set lk := (fun i => dbLookup store i) with hlkdef
  set o1 := phase1 fl isN batch (store, initResult batch.length) with ho1
  set o2 := phase2 fl lk batch o1 with ho2
  set obs := obsoletosOf store (excelImeis batch) with hobs
  set o3 := phase3 fl lk obs o2 with ho3
  have hsync : syncImeis fl true store batch = (o3.1, { o3.2 with success := true }) := by
    rw [ho3, ho2, ho1, hobs, hlkdef, hisN]
    rfl
  refine ⟨⟨rfl, rfl, rfl, rfl⟩, by rw [hsync], ?_, ?_, ?_, ?_⟩
  · intro i hhas hfl hex
    rw [hsync]
    show ("Error al insertar IMEI: " ++ i) ∈ o3.2.errors
    have hN : isN i = true := by rw [hisN]; simp [hhas]
    have h1 : ("Error al insertar IMEI: " ++ i) ∈ o1.2.errors := by
      rw [ho1]
      exact phase1_error_recorded fl isN batch (store, initResult batch.length) i hN hfl hex
    have h2 : ("Error al insertar IMEI: " ++ i) ∈ o2.2.errors := by
      rw [ho2]
      exact phase2_errors_mono fl lk batch o1 _ h1
    rw [ho3]
    exact phase3_errors_mono fl lk obs o2 _ h2
  · intro i fb ab hlk hfl hex
    rw [hsync]
    show ("Error al actualizar IMEI: " ++ i) ∈ o3.2.errors
    have h2 : ("Error al actualizar IMEI: " ++ i) ∈ o2.2.errors := by
      rw [ho2]
      exact phase2_error_recorded fl lk batch o1 i fb ab hlk hfl hex
    rw [ho3]
    exact phase3_errors_mono fl lk obs o2 _ h2
  · intro i hhas hnk hfl
    rw [hsync]
    show ("Error al desactivar IMEI: " ++ i) ∈ o3.2.errors
    have hmem : i ∈ obs := by
      rw [hobs]
      exact (mem_obsoletos_iff store (excelImeis batch) i).mpr
        ⟨(storeHas_iff_mem_map store i).mp hhas, hnk⟩
    rw [ho3]
    exact phase3_error_recorded fl lk obs o2 i hmem hfl
  · intro i hhas hfl hex
    rw [hsync]
    show storeHas o3.1 i = true
    have hN : isN i = true := by rw [hisN]; simp [hhas]
    have h1 : rowsWith o1.1 i = [⟨i, fFirst batch i, true⟩] := by
      rw [ho1]
      exact phase1_insert_new fl isN batch (store, initResult batch.length) i hN
        ((storeHas_false_iff store i).mp hhas) hfl hex
    have hlkn : lk i = none := by
      rw [hlkdef]
      exact (dbLookup_none_iff store i).mpr ((storeHas_false_iff store i).mp hhas)
    have h2 : rowsWith o2.1 i = [⟨i, fFirst batch i, true⟩] := by
      rw [ho2, phase2_rowsWith_lk_none fl lk batch o1 i hlkn]
      exact h1
    have hnobs : ¬ i ∈ obs := by
      rw [hobs]
      intro hmem
      obtain ⟨x, hx, hxk⟩ := hex
      exact ((mem_obsoletos_iff store (excelImeis batch) i).mp hmem).2
        ((mem_keys_iff batch i).mpr ⟨x, hx, hxk⟩)
    have h3 : rowsWith o3.1 i = [⟨i, fFirst batch i, true⟩] := by
      rw [ho3, phase3_rowsWith_not_mem fl lk obs o2 i hnobs]
      exact h2
    rw [storeHas_true_iff, h3]
    simp

theorem C4_failure_semantics_witness :
    ("Error al insertar IMEI: " ++ "A") ∈ (syncImeis faultsErr true storeErr batchErr).2.errors ∧
    ("Error al actualizar IMEI: " ++ "B") ∈ (syncImeis faultsErr true storeErr batchErr).2.errors ∧
    ("Error al desactivar IMEI: " ++ "C") ∈ (syncImeis faultsErr true storeErr batchErr).2.errors ∧
    storeHas (syncImeis faultsErr true storeErr batchErr).1 "D" = true ∧
    (syncImeis faultsErr true storeErr batchErr).2.success = true ∧
    (syncImeis faultsErr false storeErr batchErr).2.success = false :=
  ⟨(C4_failure_semantics faultsErr storeErr batchErr).2.2.1 "A" (by decide) (by decide)
     ⟨⟨some "A", none⟩, by decide, by decide⟩,
   (C4_failure_semantics faultsErr storeErr batchErr).2.2.2.1 "B" none false (by decide)
     (by decide) ⟨⟨some "B", some ⟨2025, 2, 2, 0, 0, 0⟩⟩, by decide, by decide, by decide⟩,
   (C4_failure_semantics faultsErr storeErr batchErr).2.2.2.2.1 "C" (by decide) (by decide)
     (by decide),
   (C4_failure_semantics faultsErr storeErr batchErr).2.2.2.2.2 "D" (by decide) (by decide)
     ⟨⟨some "D", none⟩, by decide, by decide⟩,
   (C4_failure_semantics faultsErr storeErr batchErr).2.1,
   (C4_failure_semantics faultsErr storeErr batchErr).1.1⟩

/-- C1: under a store satisfying the UNIQUE-identifier constraint, a run of
`sync_imeis` issues only INSERT and UPDATE statements and never loses an
identifier: every identifier persisted before the run is still persisted
after it; identifiers persisted but absent from the batch end with
`activo = false`; identifiers present in the batch end persisted with
`activo = true`. -/
theorem C1_no_deletion (store : List Row) (batch : List ExcelItem)
    (hnd : (store.map Row.imei).Nodup) :
    (∀ r ∈ store, ∃ r2 ∈ (syncImeis noFaults true store batch).1, r2.imei = r.imei) ∧
    (∀ op ∈ (syncImeis noFaults true store batch).2.writeOps,
      WriteOp.sqlVerb op = "INSERT" ∨ WriteOp.sqlVerb op = "UPDATE") ∧
    (∀ r ∈ (syncImeis noFaults true store batch).1,
      storeHas store r.imei = true → ¬ r.imei ∈ excelImeis batch →
        r.activo = false) ∧
    (∀ i ∈ excelImeis batch,
      (∃ r ∈ (syncImeis noFaults true store batch).1, r.imei = i) ∧
      (∀ r ∈ (syncImeis noFaults true store batch).1, r.imei = i →
        r.activo = true)) := by
  set isN := (fun i => !(storeHas store i)) with hisN
  set lk := (fun i => dbLookup store i) with hlkdef
  set o1 := phase1 noFaults isN batch (store, initResult batch.length) with ho1
  set o2 := phase2 noFaults lk batch o1 with ho2
  set obs := obsoletosOf store (excelImeis batch) with hobs
  set o3 := phase3 noFaults lk obs o2 with ho3
  have hsync : syncImeis noFaults true store batch =
      (o3.1, { o3.2 with success := true }) := by
    rw [ho3, ho2, ho1, hobs, hlkdef, hisN]
    rfl
  have hmapeq : o3.1.map Row.imei = o1.1.map Row.imei := by
    rw [ho3, ho2]
    rw [phase3_map_imei, phase2_map_imei]
  refine ⟨?_, ?_, ?_, ?_⟩
  · intro r hr
    rw [hsync]
    obtain ⟨ext, hext⟩ := phase1_store_prefix noFaults isN batch (store, initResult batch.length)
    rw [← ho1] at hext
    have hmem : r.imei ∈ o3.1.map Row.imei := by
      rw [hmapeq, hext]
      simp only [List.map_append, List.mem_append]
      exact Or.inl (List.mem_map_of_mem Row.imei hr)
    obtain ⟨r2, hr2, he2⟩ := List.mem_map.mp hmem
    exact ⟨r2, hr2, he2⟩
  · intro op _
    cases op with
    | ins _ => left; rfl
    | upd _ => right; rfl
    | deact _ => right; rfl
  · rw [hsync]
    intro r hr hhas hnk
    have hN : isN r.imei = false := by rw [hisN]; simp [hhas]
    have h1 : rowsWith o1.1 r.imei = rowsWith store r.imei := by
      rw [ho1]
      exact phase1_rowsWith_isN_false noFaults isN batch _ r.imei hN
    have hnkey : ∀ it ∈ batch, it.key ≠ some r.imei := by
      intro it hit hkeq
      exact hnk ((mem_keys_iff batch r.imei).mpr ⟨it, hit, hkeq⟩)
    have h2 : rowsWith o2.1 r.imei = rowsWith store r.imei := by
      rw [ho2, phase2_rowsWith_no_key noFaults lk batch o1 r.imei hnkey]
      exact h1
    have hiobs : r.imei ∈ obs := by
      rw [hobs]
      exact (mem_obsoletos_iff store (excelImeis batch) r.imei).mpr
        ⟨(storeHas_iff_mem_map store r.imei).mp hhas, hnk⟩
    have h3 : rowsWith o3.1 r.imei =
        (rowsWith store r.imei).map (fun r => { r with activo := false }) := by
      rw [ho3, phase3_deact noFaults lk obs o2 r.imei hiobs
        (by rw [hobs]; exact obsoletos_nodup store (excelImeis batch)) rfl, h2]
    have hrin : r ∈ rowsWith o3.1 r.imei := mem_rowsWith o3.1 r hr
    rw [h3] at hrin
    obtain ⟨x, _, hx⟩ := List.mem_map.mp hrin
    rw [← hx]
  · rw [hsync]
    intro i hi
    obtain ⟨it0, hit0, hkey0⟩ := (mem_keys_iff batch i).mp hi
    have hnobs : ¬ i ∈ obs := by
      rw [hobs]
      intro hmem
      exact ((mem_obsoletos_iff store (excelImeis batch) i).mp hmem).2 hi
    have hfinal : ∃ r', rowsWith o3.1 i = [r'] ∧ r'.activo = true := by
      cases hhas : storeHas store i with
      | false =>
        have hN : isN i = true := by rw [hisN]; simp [hhas]
        have h1 : rowsWith o1.1 i = [⟨i, fFirst batch i, true⟩] := by
          rw [ho1]
          exact phase1_insert_new noFaults isN batch _ i hN
            ((storeHas_false_iff store i).mp hhas) rfl ⟨it0, hit0, hkey0⟩
        have hlkn : lk i = none := by
          rw [hlkdef]
          exact (dbLookup_none_iff store i).mpr ((storeHas_false_iff store i).mp hhas)
        have h2 : rowsWith o2.1 i = [⟨i, fFirst batch i, true⟩] := by
          rw [ho2, phase2_rowsWith_lk_none noFaults lk batch o1 i hlkn]
          exact h1
        refine ⟨⟨i, fFirst batch i, true⟩, ?_, rfl⟩
        rw [ho3, phase3_rowsWith_not_mem noFaults lk obs o2 i hnobs]
        exact h2
      | true =>
        obtain ⟨r0, hr0⟩ := nodup_rowsWith_singleton store i hnd hhas
        have hN : isN i = false := by rw [hisN]; simp [hhas]
        have h1 : rowsWith o1.1 i = [r0] := by
          rw [ho1, phase1_rowsWith_isN_false noFaults isN batch _ i hN]
          exact hr0
        have hlks : lk i = some (r0.fecha, r0.activo) := by
          rw [hlkdef]
          exact dbLookup_singleton store i r0 hr0
        obtain ⟨r', hr', ha'⟩ := phase2_active noFaults lk batch o1 i r0
          r0.fecha r0.activo rfl hlks h1 rfl rfl
          (fun _ => ⟨it0, hit0, hkey0⟩)
        rw [← ho2] at hr'
        refine ⟨r', ?_, ha'⟩
        rw [ho3, phase3_rowsWith_not_mem noFaults lk obs o2 i hnobs]
        exact hr'
    obtain ⟨r', hr', ha'⟩ := hfinal
    constructor
    · have : r' ∈ rowsWith o3.1 i := by rw [hr']; simp
      exact ⟨r', (rowsWith_mem_imei o3.1 r' this).1, (rowsWith_mem_imei o3.1 r' this).2⟩
    · intro r hrin hri
      have hmem : r ∈ rowsWith o3.1 i := by
        rw [← hri]
        exact mem_rowsWith o3.1 r hrin
      rw [hr'] at hmem
      simp only [List.mem_singleton] at hmem
      rw [hmem]
      exact ha'

theorem fFirst_unique (i : String) :
    ∀ (l : List ExcelItem), (l.filterMap ExcelItem.key).count i ≤ 1 →
      ∀ it ∈ l, it.key = some i → fFirst l i = it.fecha := by
  intro l
  induction l with
  | nil => intro _ it hit; simp at hit
  | cons x l ih =>
    intro hcnt it hit hk
    by_cases hxk : x.key = some i
    · rw [fFirst_cons_key x l i hxk]
      rcases List.mem_cons.mp hit with rfl | hit2
      · rfl
      · exfalso
        have hcnt0 : (l.filterMap ExcelItem.key).count i = 0 := by
          rw [show (x :: l).filterMap ExcelItem.key = i :: l.filterMap ExcelItem.key from by
            simp [List.filterMap_cons, hxk], List.count_cons_self] at hcnt
          omega
        exact count_zero_no_key l i hcnt0 it hit2 hk
    · rw [fFirst_cons_not x l i hxk]
      rcases List.mem_cons.mp hit with rfl | hit2
      · exact absurd hk hxk
      · refine ih ?_ it hit2 hk
        cases hx : x.key with
        | none =>
          rw [show (x :: l).filterMap ExcelItem.key = l.filterMap ExcelItem.key from by
            simp [List.filterMap_cons, hx]] at hcnt
          exact hcnt
        | some j =>
          rw [show (x :: l).filterMap ExcelItem.key = j :: l.filterMap ExcelItem.key from by
            simp [List.filterMap_cons, hx]] at hcnt
          have hj : i ≠ j := fun hij => hxk (by rw [hij]; exact hx)
          rw [List.count_cons_of_ne hj] at hcnt
          exact hcnt

theorem run1_key_fact (store : List Row) (batch : List ExcelItem)
    (hnd : (store.map Row.imei).Nodup)
    (hded : (excelImeis batch).Nodup) :
    ∀ i ∈ excelImeis batch,
      ∃ r', rowsWith (syncImeis noFaults true store batch).1 i = [r'] ∧
        r'.activo = true ∧
        ∀ it ∈ batch, it.key = some i → fechaCambio it.fecha r'.fecha = false := by
  set isN := (fun i => !(storeHas store i)) with hisN
  set lk := (fun i => dbLookup store i) with hlkdef
  set o1 := phase1 noFaults isN batch (store, initResult batch.length) with ho1
  set o2 := phase2 noFaults lk batch o1 with ho2
  set obs := obsoletosOf store (excelImeis batch) with hobs
  set o3 := phase3 noFaults lk obs o2 with ho3
  have hsync : (syncImeis noFaults true store batch).1 = o3.1 := by
    rw [ho3, ho2, ho1, hobs, hlkdef, hisN]
    rfl
  rw [hsync]
  intro i hi
  obtain ⟨it0, hit0, hkey0⟩ := (mem_keys_iff batch i).mp hi
  have hcnt : (batch.filterMap ExcelItem.key).count i ≤ 1 :=
    List.nodup_iff_count_le_one.mp hded i
  have hnobs : ¬ i ∈ obs := by
    rw [hobs]
    intro hmem
    exact ((mem_obsoletos_iff store (excelImeis batch) i).mp hmem).2 hi
  cases hhas : storeHas store i with
  | false =>
    have hN : isN i = true := by rw [hisN]; simp [hhas]
    have h1 : rowsWith o1.1 i = [⟨i, fFirst batch i, true⟩] := by
      rw [ho1]
      exact phase1_insert_new noFaults isN batch _ i hN
        ((storeHas_false_iff store i).mp hhas) rfl ⟨it0, hit0, hkey0⟩
    have hlkn : lk i = none := by
      rw [hlkdef]
      exact (dbLookup_none_iff store i).mpr ((storeHas_false_iff store i).mp hhas)
    have h2 : rowsWith o2.1 i = [⟨i, fFirst batch i, true⟩] := by
      rw [ho2, phase2_rowsWith_lk_none noFaults lk batch o1 i hlkn]
      exact h1
    refine ⟨⟨i, fFirst batch i, true⟩, ?_, rfl, ?_⟩
    · rw [ho3, phase3_rowsWith_not_mem noFaults lk obs o2 i hnobs]
      exact h2
    · intro it hit hk
      have := fFirst_unique i batch hcnt it hit hk
      show fechaCambio it.fecha (fFirst batch i) = false
      rw [this]
      exact fechaCambio_self _
  | true =>
    obtain ⟨r0, hr0⟩ := nodup_rowsWith_singleton store i hnd hhas
    have hN : isN i = false := by rw [hisN]; simp [hhas]
    have h1 : rowsWith o1.1 i = [r0] := by
      rw [ho1, phase1_rowsWith_isN_false noFaults isN batch _ i hN]
      exact hr0
    have hlks : lk i = some (r0.fecha, r0.activo) := by
      rw [hlkdef]
      exact dbLookup_singleton store i r0 hr0
    obtain ⟨r', hr', hall⟩ := phase2_good noFaults lk batch o1 i r0
      r0.fecha r0.activo rfl hlks h1 rfl rfl hcnt
    rw [← ho2] at hr'
    refine ⟨r', ?_, (hall it0 hit0 hkey0).1, fun it hit hk => (hall it hit hk).2⟩
    rw [ho3, phase3_rowsWith_not_mem noFaults lk obs o2 i hnobs]
    exact hr'

theorem run1_nonkey_fact (store : List Row) (batch : List ExcelItem) :
    ∀ i, ¬ i ∈ excelImeis batch →
      rowsWith (syncImeis noFaults true store batch).1 i =
        (rowsWith store i).map (fun r => { r with activo := false }) := by
  set isN := (fun i => !(storeHas store i)) with hisN
  set lk := (fun i => dbLookup store i) with hlkdef
  set o1 := phase1 noFaults isN batch (store, initResult batch.length) with ho1
  set o2 := phase2 noFaults lk batch o1 with ho2
  set obs := obsoletosOf store (excelImeis batch) with hobs
  set o3 := phase3 noFaults lk obs o2 with ho3
  have hsync : (syncImeis noFaults true store batch).1 = o3.1 := by
    rw [ho3, ho2, ho1, hobs, hlkdef, hisN]
    rfl
  rw [hsync]
  intro i hni
  have hnkey : ∀ it ∈ batch, it.key ≠ some i := by
    intro it hit hkeq
    exact hni ((mem_keys_iff batch i).mpr ⟨it, hit, hkeq⟩)
  cases hhas : storeHas store i with
  | true =>
    have hN : isN i = false := by rw [hisN]; simp [hhas]
    have h1 : rowsWith o1.1 i = rowsWith store i := by
      rw [ho1]
      exact phase1_rowsWith_isN_false noFaults isN batch _ i hN
    have h2 : rowsWith o2.1 i = rowsWith store i := by
      rw [ho2, phase2_rowsWith_no_key noFaults lk batch o1 i hnkey]
      exact h1
    have hiobs : i ∈ obs := by
      rw [hobs]
      exact (mem_obsoletos_iff store (excelImeis batch) i).mpr
        ⟨(storeHas_iff_mem_map store i).mp hhas, hni⟩
    rw [ho3, phase3_deact noFaults lk obs o2 i hiobs
      (by rw [hobs]; exact obsoletos_nodup store (excelImeis batch)) rfl, h2]
  | false =>
    have hemp : rowsWith store i = [] := (storeHas_false_iff store i).mp hhas
    have h1 : rowsWith o1.1 i = [] := by
      rw [ho1, phase1_rowsWith_no_key noFaults isN batch _ i hnkey]
      exact hemp
    have h2 : rowsWith o2.1 i = [] := by
      rw [ho2, phase2_rowsWith_no_key noFaults lk batch o1 i hnkey]
      exact h1
    have hnobs : ¬ i ∈ obs := by
      rw [hobs]
      intro hmem
      have := ((mem_obsoletos_iff store (excelImeis batch) i).mp hmem).1
      rw [← storeHas_iff_mem_map] at this
      rw [hhas] at this
      exact Bool.noConfusion this
    rw [ho3, phase3_rowsWith_not_mem noFaults lk obs o2 i hnobs, h2, hemp]
    rfl

/-- C2 (amended): re-running the same deduplicated batch produces the same
end state, with every batch identifier classified `sin_cambios` and zero
inserts and updates; however the second run is not write-free — it re-issues
the deactivation UPDATE for every store identifier absent from the batch
(those are its only writes). -/
theorem C2_idempotence_amended (store : List Row) (batch : List ExcelItem)
    (hnd : (store.map Row.imei).Nodup)
    (hded : (excelImeis batch).Nodup) :
    (syncImeis noFaults true (syncImeis noFaults true store batch).1 batch).1 =
      (syncImeis noFaults true store batch).1 ∧
    (syncImeis noFaults true (syncImeis noFaults true store batch).1 batch).2.nuevos = 0 ∧
    (syncImeis noFaults true (syncImeis noFaults true store batch).1 batch).2.actualizados = 0 ∧
    (syncImeis noFaults true (syncImeis noFaults true store batch).1 batch).2.sinCambios =
      batch.filterMap (fun it => it.key.map (fun j => (j, it.fecha))) ∧
    (∀ op ∈ (syncImeis noFaults true (syncImeis noFaults true store batch).1 batch).2.writeOps,
      ∃ i, op = WriteOp.deact i ∧ storeHas store i = true ∧
        ¬ i ∈ excelImeis batch) := by
  have hkey := run1_key_fact store batch hnd hded
  have hnonkey := run1_nonkey_fact store batch
  set S1 := (syncImeis noFaults true store batch).1 with hS1
  set isN2 := (fun i => !(storeHas S1 i)) with hisN2
  set lk2 := (fun i => dbLookup S1 i) with hlk2
  set q1 := phase1 noFaults isN2 batch (S1, initResult batch.length) with hq1def
  set q2 := phase2 noFaults lk2 batch q1 with hq2def
  set obs2 := obsoletosOf S1 (excelImeis batch) with hobs2
  set q3 := phase3 noFaults lk2 obs2 q2 with hq3def
  have hsync2 : syncImeis noFaults true S1 batch = (q3.1, { q3.2 with success := true }) := by
    rw [hq3def, hq2def, hq1def, hobs2, hlk2, hisN2]
    rfl
  have hq1 : q1 = (S1, initResult batch.length) := by
    rw [hq1def]
    apply phase1_skip
    intro it hit j hk
    have hj : j ∈ excelImeis batch := (mem_keys_iff batch j).mpr ⟨it, hit, hk⟩
    obtain ⟨r', hr', _, _⟩ := hkey j hj
    have hh : storeHas S1 j = true := (storeHas_true_iff S1 j).mpr (by rw [hr']; simp)
    rw [hisN2]
    simp [hh]
  have hunchg : ∀ it ∈ batch, ∀ j, it.key = some j →
      ∃ fb, lk2 j = some (fb, true) ∧ fechaCambio it.fecha fb = false := by
    intro it hit j hk
    obtain ⟨r', hr', hact, hfc⟩ := hkey j ((mem_keys_iff batch j).mpr ⟨it, hit, hk⟩)
    refine ⟨r'.fecha, ?_, hfc it hit hk⟩
    show dbLookup S1 j = some (r'.fecha, true)
    rw [dbLookup_singleton S1 j r' hr', hact]
  have hq2 : q2 = (S1, { initResult batch.length with
      sinCambios := batch.filterMap (fun it => it.key.map (fun j => (j, it.fecha))) }) := by
    rw [hq2def, hq1, phase2_all_unchanged noFaults lk2 batch (S1, initResult batch.length) hunchg]
    simp [initResult]
  have hrows2 : ∀ i ∈ obs2, ∀ r ∈ q2.1, r.imei = i → r.activo = false := by
    intro i hi r hr hri
    rw [hobs2] at hi
    obtain ⟨hm, hnk⟩ := (mem_obsoletos_iff S1 (excelImeis batch) i).mp hi
    have hSrows := hnonkey i hnk
    have hq2S : q2.1 = S1 := by rw [hq2]
    have hmem : r ∈ rowsWith S1 i := by
      rw [← hri, ← hq2S]
      exact mem_rowsWith q2.1 r hr
    rw [hSrows] at hmem
    obtain ⟨x, _, hx⟩ := List.mem_map.mp hmem
    rw [← hx]
  have hq3 : q3 = (q2.1, { q2.2 with
      desactivados := q2.2.desactivados + obs2.length,
      desactivadosList := q2.2.desactivadosList ++ obs2.map (fun i => (i, lkFecha lk2 i)),
      writeOps := q2.2.writeOps ++ obs2.map WriteOp.deact }) := by
    rw [hq3def]
    exact phase3_all_inactive noFaults lk2 obs2 q2 (fun _ _ => rfl) hrows2
  rw [hsync2]
  refine ⟨?_, ?_, ?_, ?_, ?_⟩
  · show q3.1 = S1
    rw [hq3]
    show q2.1 = S1
    rw [hq2]
  · show q3.2.nuevos = 0
    rw [hq3]
    show q2.2.nuevos = 0
    rw [hq2]
    rfl
  · show q3.2.actualizados = 0
    rw [hq3]
    show q2.2.actualizados = 0
    rw [hq2]
    rfl
  · show q3.2.sinCambios = batch.filterMap (fun it => it.key.map (fun j => (j, it.fecha)))
    rw [hq3]
    show q2.2.sinCambios = batch.filterMap (fun it => it.key.map (fun j => (j, it.fecha)))
    rw [hq2]
  · show ∀ op ∈ q3.2.writeOps, ∃ i, op = WriteOp.deact i ∧
      storeHas store i = true ∧ ¬ i ∈ excelImeis batch
    intro op hop
    have hops : q3.2.writeOps = obs2.map WriteOp.deact := by
      rw [hq3]
      show q2.2.writeOps ++ obs2.map WriteOp.deact = obs2.map WriteOp.deact
      rw [hq2]
      show ([] : List WriteOp) ++ obs2.map WriteOp.deact = obs2.map WriteOp.deact
      simp
    rw [hops] at hop
    obtain ⟨i, hi, hopeq⟩ := List.mem_map.mp hop
    rw [hobs2] at hi
    obtain ⟨hm, hnk⟩ := (mem_obsoletos_iff S1 (excelImeis batch) i).mp hi
    refine ⟨i, hopeq.symm, ?_, hnk⟩
    cases hhas : storeHas store i with
    | true => rfl
    | false =>
      exfalso
      have hemp : rowsWith store i = [] := (storeHas_false_iff store i).mp hhas
      have hSrows := hnonkey i hnk
      rw [hemp, List.map_nil] at hSrows
      have : storeHas S1 i = false := (storeHas_false_iff S1 i).mpr hSrows
      rw [← storeHas_iff_mem_map] at hm
      rw [this] at hm
      exact Bool.noConfusion hm

/-- C2 counterexample: with persisted `{"C"}` and batch `{"A"}`, the second
run of the same batch issues a row write — it re-executes the deactivation
UPDATE for `"C"` (`desactivados = 1`) — refuting "no row writes at all on
the second run". -/
theorem C2_counterexample :
    (syncImeis noFaults true
        (syncImeis noFaults true [⟨"C", none, true⟩] [⟨some "A", none⟩]).1
        [⟨some "A", none⟩]).2.writeOps = [WriteOp.deact "C"] ∧
    (syncImeis noFaults true
        (syncImeis noFaults true [⟨"C", none, true⟩] [⟨some "A", none⟩]).1
        [⟨some "A", none⟩]).2.desactivados = 1 ∧
    ¬ (syncImeis noFaults true
        (syncImeis noFaults true [⟨"C", none, true⟩] [⟨some "A", none⟩]).1
        [⟨some "A", none⟩]).2.writeOps = [] ∧
    (syncImeis noFaults true
        (syncImeis noFaults true [⟨"C", none, true⟩] [⟨some "A", none⟩]).1
        [⟨some "A", none⟩]).2.nuevos = 0 ∧
    (syncImeis noFaults true
        (syncImeis noFaults true [⟨"C", none, true⟩] [⟨some "A", none⟩]).1
        [⟨some "A", none⟩]).2.actualizados = 0 ∧
    (syncImeis noFaults true
        (syncImeis noFaults true [⟨"C", none, true⟩] [⟨some "A", none⟩]).1
        [⟨some "A", none⟩]).1 =
      (syncImeis noFaults true [⟨"C", none, true⟩] [⟨some "A", none⟩]).1 := by
  refine ⟨by decide, by decide, by decide, by decide, by decide, by decide⟩

/-- Witness for C2 at persisted `{"A","B","C"}` and batch `{"A","B"}`. -/
theorem C2_idempotence_amended_witness :
    (storeABC.map Row.imei).Nodup ∧ (excelImeis batchAB).Nodup ∧
    (syncImeis noFaults true (syncImeis noFaults true storeABC batchAB).1 batchAB).1 =
      (syncImeis noFaults true storeABC batchAB).1 ∧
    (syncImeis noFaults true (syncImeis noFaults true storeABC batchAB).1 batchAB).2.nuevos = 0 ∧
    (syncImeis noFaults true (syncImeis noFaults true storeABC batchAB).1 batchAB).2.actualizados = 0 ∧
    (∃ i, WriteOp.deact "C" = WriteOp.deact i ∧ storeHas storeABC i = true ∧
      ¬ i ∈ excelImeis batchAB) :=
  ⟨by decide, by decide,
   (C2_idempotence_amended storeABC batchAB (by decide) (by decide)).1,
   (C2_idempotence_amended storeABC batchAB (by decide) (by decide)).2.1,
   (C2_idempotence_amended storeABC batchAB (by decide) (by decide)).2.2.1,
   (C2_idempotence_amended storeABC batchAB (by decide) (by decide)).2.2.2.2
     (WriteOp.deact "C") (by decide)⟩

/-- Witness for C1 at persisted `{"A","B","C"}` all active and batch
`{"A","B"}`: `"C"` ends `activo = false`, `"A"` and `"B"` end persisted and
`activo = true`, and `"C"`'s row survives the run. -/
theorem C1_no_deletion_witness :
    (storeABC.map Row.imei).Nodup ∧
    (∃ r2 ∈ (syncImeis noFaults true storeABC batchAB).1,
      r2.imei = (⟨"C", none, true⟩ : Row).imei) ∧
    ((⟨"C", none, false⟩ : Row).activo = false) ∧
    ((∃ r ∈ (syncImeis noFaults true storeABC batchAB).1, r.imei = "A") ∧
     (∀ r ∈ (syncImeis noFaults true storeABC batchAB).1, r.imei = "A" →
       r.activo = true)) ∧
    ((∃ r ∈ (syncImeis noFaults true storeABC batchAB).1, r.imei = "B") ∧
     (∀ r ∈ (syncImeis noFaults true storeABC batchAB).1, r.imei = "B" →
       r.activo = true)) :=
  ⟨by decide,
   (C1_no_deletion storeABC batchAB (by decide)).1 ⟨"C", none, true⟩ (by decide),
   (C1_no_deletion storeABC batchAB (by decide)).2.2.1 ⟨"C", none, false⟩
     (by decide) (by decide) (by decide),
   (C1_no_deletion storeABC batchAB (by decide)).2.2.2 "A" (by decide),
   (C1_no_deletion storeABC batchAB (by decide)).2.2.2 "B" (by decide)⟩
